import Mathlib

/-!
# Verification of the personal-planner schedule-analysis engine

Shallow embedding of `src/services/analysis.ts` (schedule analyzer) and
`src/services/checklist.ts` (checklist carry-over) of the personal-planner
repository, together with proofs settling the specification claims.

Modelling conventions (documented once here, referenced below):

* JS `Date` instants are modelled as `Int` milliseconds since the epoch.
  A string that `new Date(...)` parses successfully is represented by its
  parsed value; an unparsable string by `RawTime.invalid`; `null`/`undefined`
  and the JS-falsy empty string by `RawTime.absent`.
* JS `number` is modelled as `ℚ` (the contract excludes sub-minute precision,
  and all arithmetic the claims touch is exact in `ℚ`).
* `"HH:MM"` time-of-day strings are represented by their parsed minute-of-day
  values (`timeToMinutes` is purely lexical, so this is lossless).
* The local calendar derived from a `date` string (`new Date(date+"T00:00:00")`,
  `getHours`, `toLocaleDateString(..., weekday)`) is timezone-dependent
  (spec §9 flags this); it is modelled by passing the local midnight instant
  `dayMidnight` and weekday name `dayName` explicitly, and by a fixed-offset
  local clock for `getHours()*60 + getMinutes()`.
* JS number-to-string formatting inside free-text `description`/`warnings`
  strings (no claim constrains them) is abstracted by `ratStr` / `toFixed1`.
* `Array.prototype.sort` with a consistent comparator is a stable sort, whose
  output is unique; it is modelled by the stable insertion sort `jsSortBy`.
-/

/-- JS truthiness for an optional string: `null`/`undefined`/`""` are falsy. -/
def strTruthy : Option String → Bool
  | none => false
  | some s => !(s == "")

/-- `xs.filter(Boolean)` on a list of optional strings, as used for
`affectedEvents`: falsy entries are dropped, truthy ones kept. -/
def dropFalsy (xs : List (Option String)) : List String :=
  xs.filterMap (fun o => match o with
    | some s => if s == "" then none else some s
    | none => none)

/-- `o || d` on strings: the JS-falsy empty string falls through to `d`. -/
def jsOrStr (o : Option String) (d : String) : String :=
  match o with
  | some s => if s == "" then d else s
  | none => d

/-- `o || ""`: absent becomes the empty string. -/
def jsOrEmpty (o : Option String) : String := jsOrStr o ""

/-- Lexicographic `<` on char lists by code point, matching the JS string `<`
operator (UTF-16 code-unit order; identical on the ASCII data in play). -/
def ltChars : List Char → List Char → Bool
  | [], [] => false
  | [], _ :: _ => true
  | _ :: _, [] => false
  | c :: cs, d :: ds =>
    if c.toNat < d.toNat then true
    else if d.toNat < c.toNat then false
    else ltChars cs ds

/-- The JS string `<` operator. -/
def jsStrLt (a b : String) : Bool := ltChars a.data b.data

/-- ASCII lowercasing of one character (`toLowerCase`; keywords are ASCII). -/
def lowerChar (c : Char) : Char :=
  if 'A' ≤ c ∧ c ≤ 'Z' then Char.ofNat (c.toNat + 32) else c

/-- `String.prototype.toLowerCase`, restricted to ASCII case mapping. -/
def jsToLower (s : String) : String := ⟨s.data.map lowerChar⟩

/-- Whether `pat` occurs at the head of `l`. -/
def leadsList : List Char → List Char → Bool
  | [], _ => true
  | _ :: _, [] => false
  | c :: cs, d :: ds => c == d && leadsList cs ds

/-- Whether `pat` occurs contiguously anywhere in `l`. -/
def hasSubList (pat : List Char) : List Char → Bool
  | [] => leadsList pat []
  | c :: cs => leadsList pat (c :: cs) || hasSubList pat cs

/-- `text.includes(kw)`: substring containment, `true` on the empty pattern. -/
def strIncludes (text kw : String) : Bool := hasSubList kw.data text.data

/-- `Math.round`: round half toward positive infinity (`Rat.floor` is the
kernel-computable floor). -/
def jsRound (q : ℚ) : ℤ := (q + 1/2).floor

/-- `Math.round(q * 10) / 10`: round to one decimal place. -/
def round10 (q : ℚ) : ℚ := (jsRound (q * 10) : ℚ) / 10

/-- Abstraction of JS number-to-string templating (used only inside free-text
strings that no claim constrains). -/
def ratStr (q : ℚ) : String := toString q.num ++ "/" ++ toString q.den

/-- Abstraction of `Number.prototype.toFixed(1)` (free text only). -/
def toFixed1 (q : ℚ) : String :=
  let n := jsRound (q * 10)
  toString (Int.tdiv n 10) ++ "." ++ toString (Int.natAbs (Int.tmod n 10))

/-- Insert `x` after every element `y` of an ascending list with `le y x`;
building block of the stable insertion sort. -/
def insertLe (le : α → α → Bool) (x : α) : List α → List α
  | [] => [x]
  | y :: ys => if le y x then y :: insertLe le x ys else x :: y :: ys

/-- Tail of the stable insertion sort: fold the remaining input into the
already-sorted accumulator. -/
def sortAux (le : α → α → Bool) (acc : List α) : List α → List α
  | [] => acc
  | x :: xs => sortAux le (insertLe le x acc) xs

/-- Stable sort by a boolean total preorder, modelling JS
`Array.prototype.sort` with a consistent comparator (ES2019+ sorts are
stable, and a stable sort under a total preorder has a unique output). -/
def jsSortBy (le : α → α → Bool) (l : List α) : List α := sortAux le [] l

-- ---------------------------------------------------------------------------
-- Data model (src/types.ts), with `Date`s as `Int` ms and `HH:MM` as minutes
-- ---------------------------------------------------------------------------

/-- `"high" | "medium" | "low"` energy level. -/
inductive EnergyLevel where
  | high
  | medium
  | low
deriving Repr, DecidableEq

/-- `"light" | "moderate" | "heavy" | "overloaded"` schedule density. -/
inductive Density where
  | light
  | moderate
  | heavy
  | overloaded
deriving Repr, DecidableEq

/-- Conflict `type` discriminator. -/
inductive ConflictType where
  | overlap
  | overcommitment
  | energy_mismatch
  | habit_gap
deriving Repr, DecidableEq

/-- Conflict `severity`. -/
inductive Severity where
  | low
  | medium
  | high
deriving Repr, DecidableEq

/-- `TimeRange`: a `{start, end}` pair of `"HH:MM"` strings, represented by
their parsed minute-of-day values. -/
structure TimeRange where
  start : Int
  «end» : Int
deriving Repr, DecidableEq

/-- `TimeBlock`: a protected block (weekday name, `HH:MM` bounds as minutes,
label). -/
structure TimeBlock where
  day : String
  start : Int
  «end» : Int
  label : String
deriving Repr, DecidableEq

/-- `SchedulingRules` from `src/types.ts`. -/
structure SchedulingRules where
  minBreakBetweenEvents : ℚ
  maxMeetingsPerDay : Int
  protectedBlocks : List TimeBlock
  preferredPlanningDay : String
  plannerCalendarId : Option String := none
deriving Repr, DecidableEq

/-- One entry of `lifeAreas`. -/
structure LifeArea where
  name : String
  weeklyTargetHours : ℚ
  priority : Int
deriving Repr, DecidableEq

/-- `energyPatterns`: the three ordered range lists. -/
structure EnergyPatterns where
  highEnergy : List TimeRange
  mediumEnergy : List TimeRange
  lowEnergy : List TimeRange
deriving Repr, DecidableEq

/-- `UserPreferences` from `src/types.ts`, including the optional
`categoryKeywords` override map (a `Record<string, string[]>`, modelled as an
insertion-ordered association list). -/
structure UserPreferences where
  energyPatterns : EnergyPatterns
  lifeAreas : List LifeArea
  schedulingRules : SchedulingRules
  categoryKeywords : Option (List (String × List String)) := none
deriving Repr, DecidableEq

/-- The value found in an event's `start.dateTime` / `start.date` field:
JS-falsy (`null`/`undefined`/`""`), present but unparsable by `new Date`,
or parsing to an instant (ms since epoch). -/
inductive RawTime where
  | absent
  | invalid
  | valid (ms : Int)
deriving Repr, DecidableEq

/-- An event `start`/`end` marker object `{dateTime?, date?}`. -/
structure EventMarker where
  dateTime : RawTime := .absent
  date : RawTime := .absent
deriving Repr, DecidableEq

/-- `CalendarEvent` from `src/services/analysis.ts`. -/
structure CalendarEvent where
  id : Option String := none
  summary : Option String := none
  description : Option String := none
  start : Option EventMarker := none
  «end» : Option EventMarker := none
deriving Repr, DecidableEq

instance : Inhabited CalendarEvent := ⟨{}⟩

/-- `Conflict` from `src/types.ts`. -/
structure Conflict where
  type : ConflictType
  severity : Severity
  description : String
  affectedEvents : List String
  suggestedResolutions : List String
deriving Repr, DecidableEq

/-- `TimeSlot`: `start`/`end` ISO instants (modelled as ms), exact duration in
minutes, and the energy classification of the slot's start. -/
structure TimeSlot where
  start : Int
  «end» : Int
  duration : ℚ
  energyLevel : EnergyLevel
deriving Repr, DecidableEq

/-- One entry of `lifeAreaBreakdown` as built by `calculateLifeAreaBreakdown`. -/
structure BreakdownEntry where
  area : String
  scheduledHours : ℚ
  targetHours : ℚ
  delta : ℚ
deriving Repr, DecidableEq

/-- `ScheduleAnalysis` as returned by `analyzeDay`. -/
structure ScheduleAnalysis where
  date : String
  density : Density
  conflicts : List Conflict
  lifeAreaBreakdown : List BreakdownEntry
  freeSlots : List TimeSlot
  warnings : List String
deriving Repr, DecidableEq

-- ---------------------------------------------------------------------------
-- Interval & classification utilities (src/services/analysis.ts)
-- ---------------------------------------------------------------------------

/-- `DAY_START_HOUR` (7am window start). -/
def DAY_START_HOUR : Int := 7

/-- `DAY_END_HOUR` (9pm window end). -/
def DAY_END_HOUR : Int := 21

/-- `event.start?.dateTime || event.start?.date`: a falsy `dateTime` falls
through to `date`; a missing marker object is falsy outright. -/
def markerRaw : Option EventMarker → RawTime
  | none => .absent
  | some m => match m.dateTime with
    | .absent => m.date
    | x => x

/-- `getEventStart`: parse the start marker; falsy or unparsable input
degrades to the epoch instant `new Date(0)`. -/
def getEventStart (event : CalendarEvent) : Int :=
  match markerRaw event.start with
  | .valid ms => ms
  | _ => 0

/-- `getEventEnd`: parse the end marker; falsy or unparsable input degrades
to the epoch instant `new Date(0)`. -/
def getEventEnd (event : CalendarEvent) : Int :=
  match markerRaw event.«end» with
  | .valid ms => ms
  | _ => 0

/-- `getEventDurationMinutes`: `(end - start) / 60000`. -/
def getEventDurationMinutes (event : CalendarEvent) : ℚ :=
  ((getEventEnd event - getEventStart event : Int) : ℚ) / 60000

/-- `getHours()*60 + getMinutes()` of an instant under the fixed-offset local
clock (seconds are floored away; `emod` yields the 0..1439 clock value). -/
def minuteOfDayOf (t : Int) : Int := (t.fdiv 60000).emod 1440

/-- `getEnergyLevel`: test high-energy ranges first, then medium, then low;
each range is half-open `[start, end)`; no match defaults to medium. -/
def getEnergyLevel (minuteOfDay : Int) (prefs : UserPreferences) : EnergyLevel :=
  match prefs.energyPatterns.highEnergy.find?
      (fun r => decide (r.start ≤ minuteOfDay ∧ minuteOfDay < r.«end»)) with
  | some _ => .high
  | none =>
    match prefs.energyPatterns.mediumEnergy.find?
        (fun r => decide (r.start ≤ minuteOfDay ∧ minuteOfDay < r.«end»)) with
    | some _ => .medium
    | none =>
      match prefs.energyPatterns.lowEnergy.find?
          (fun r => decide (r.start ≤ minuteOfDay ∧ minuteOfDay < r.«end»)) with
      | some _ => .low
      | none => .medium

/-- `LIFE_AREA_KEYWORDS`, in declaration order (JS `Record` iteration order is
insertion order for string keys). -/
def LIFE_AREA_KEYWORDS : List (String × List String) :=
  [("work",
    ["meeting", "standup", "sync", "review", "sprint", "work", "project",
     "deadline", "presentation", "interview", "1:1", "one-on-one",
     "planning", "retro", "demo", "scrum", "kickoff"]),
   ("fitness",
    ["gym", "workout", "run", "running", "yoga", "exercise", "fitness",
     "swim", "cycling", "hike", "walk", "training", "crossfit", "pilates"]),
   ("hobbies",
    ["hobby", "paint", "draw", "music", "guitar", "piano", "read",
     "game", "craft", "cook", "photography", "garden"]),
   ("personal",
    ["doctor", "dentist", "appointment", "errand", "haircut", "pharmacy",
     "bank", "cleaning", "shopping", "chore", "therapist", "vet"]),
   ("social",
    ["dinner", "lunch with", "coffee with", "drinks", "party", "hangout",
     "catch up", "friends", "family", "date night", "birthday"])]

/-- The lowercased `"{title} {description}"` text `categorizeEvent` matches
against. -/
def eventText (event : CalendarEvent) : String :=
  jsToLower (jsOrEmpty event.summary ++ " " ++ jsOrEmpty event.description)

/-- The `for (const [area, keywords] of Object.entries(...))` loop body of
`categorizeEvent`: first area with a substring-matching keyword wins. -/
def catLoop (text : String) : List (String × List String) → Option String
  | [] => none
  | (area, keywords) :: rest =>
    if keywords.any (fun kw => strIncludes text kw) then some area
    else catLoop text rest

/-- `categorizeEvent`: first-match-wins lookup over `LIFE_AREA_KEYWORDS`
(the function reads no preferences). -/
def categorizeEvent (event : CalendarEvent) : Option String :=
  catLoop (eventText event) LIFE_AREA_KEYWORDS

-- ---------------------------------------------------------------------------
-- Conflict detectors
-- ---------------------------------------------------------------------------

/-- The conflict record `detectOverlaps` pushes for an overlapping pair. -/
def mkOverlapConflict (a b : CalendarEvent) : Conflict :=
  { type := .overlap,
    severity := .high,
    description := "\"" ++ jsOrEmpty a.summary ++ "\" overlaps with \"" ++
      jsOrEmpty b.summary ++ "\"",
    affectedEvents := dropFalsy [a.id, b.id],
    suggestedResolutions :=
      ["Reschedule one of the events", "Shorten one of the events"] }

/-- Boolean form of the strict-overlap test `aStart < bEnd && bStart < aEnd`. -/
def overlapB (a b : CalendarEvent) : Bool :=
  decide (getEventStart a < getEventEnd b ∧ getEventStart b < getEventEnd a)

/-- `detectOverlaps`: the nested index loops `for i; for j = i+1 ...`,
pushing one conflict per ordered index pair that passes the strict-overlap
test. -/
def detectOverlaps (events : List CalendarEvent) : List Conflict :=
  (List.range events.length).flatMap (fun i =>
    (List.range' (i + 1) (events.length - (i + 1))).flatMap (fun j =>
      let a := events.getD i default
      let b := events.getD j default
      if overlapB a b then [mkOverlapConflict a b] else []))

/-- `detectOvercommitment`: one conflict covering all events when the event
count exceeds `maxMeetingsPerDay`; severity high when it exceeds it by more
than 2. -/
def detectOvercommitment (events : List CalendarEvent)
    (prefs : UserPreferences) : List Conflict :=
  let mx := prefs.schedulingRules.maxMeetingsPerDay
  if (events.length : Int) > mx then
    [{ type := .overcommitment,
       severity := if (events.length : Int) > mx + 2 then .high else .medium,
       description := toString events.length ++ " events scheduled (max: " ++
         toString mx ++ ")",
       affectedEvents := dropFalsy (events.map (·.id)),
       suggestedResolutions :=
         ["Cancel or reschedule lower-priority events",
          "Combine related meetings"] }]
  else []

/-- `detectEnergyMismatches`: one medium conflict per event of duration
≥ 60 minutes whose start minute classifies as low energy. -/
def detectEnergyMismatches (events : List CalendarEvent)
    (prefs : UserPreferences) : List Conflict :=
  events.flatMap (fun event =>
    let duration := getEventDurationMinutes event
    if duration < 60 then []
    else
      let minuteOfDay := minuteOfDayOf (getEventStart event)
      if getEnergyLevel minuteOfDay prefs = .low then
        [{ type := .energy_mismatch,
           severity := .medium,
           description := "\"" ++ jsOrEmpty event.summary ++ "\" (" ++
             ratStr duration ++ "min) is scheduled during a low-energy period",
           affectedEvents := dropFalsy [event.id],
           suggestedResolutions :=
             ["Move to a high-energy time slot", "Break into smaller tasks"] }]
      else [])

-- ---------------------------------------------------------------------------
-- Warnings, density, life-area breakdown
-- ---------------------------------------------------------------------------

/-- The adjacent-pair loop of `generateWarnings`: count gaps that are `>= 0`
and `< minBreakBetweenEvents` minutes in the start-sorted event list. -/
def countBackToBack (minBreak : ℚ) : List CalendarEvent → Nat
  | a :: b :: rest =>
    (let gap : ℚ := ((getEventStart b - getEventEnd a : Int) : ℚ) / 60000
     if gap < minBreak ∧ 0 ≤ gap then 1 else 0) + countBackToBack minBreak (b :: rest)
  | _ => 0

/-- Sum of `getEventDurationMinutes` over the event list (the
`events.reduce(...)` accumulator, in minutes). -/
def totalScheduledMinutes (events : List CalendarEvent) : ℚ :=
  events.foldl (fun sum e => sum + getEventDurationMinutes e) 0

/-- `generateWarnings`: an aggregate back-to-back warning and an overload
warning (free text; numeric formatting abstracted). -/
def generateWarnings (events : List CalendarEvent)
    (prefs : UserPreferences) : List String :=
  let sorted := jsSortBy (fun a b => decide (getEventStart a ≤ getEventStart b)) events
  let backToBackCount := countBackToBack prefs.schedulingRules.minBreakBetweenEvents sorted
  let totalHours := totalScheduledMinutes events / 60
  (if backToBackCount > 0 then
    [toString backToBackCount ++ " back-to-back transition(s) with less than " ++
      ratStr prefs.schedulingRules.minBreakBetweenEvents ++ "min break"]
  else []) ++
  (if totalHours > 8 then
    [toFixed1 totalHours ++ " hours of events scheduled — consider lightening the load"]
  else [])

/-- `calculateDensity`: total scheduled hours mapped to the four bands. -/
def calculateDensity (events : List CalendarEvent) : Density :=
  let totalHours := totalScheduledMinutes events / 60
  if totalHours < 4 then .light
  else if totalHours < 6 then .moderate
  else if totalHours < 8 then .heavy
  else .overloaded

/-- `hoursPerArea[area] = (hoursPerArea[area] || 0) + d`: update an existing
key in place or append a new one (JS object insertion order). -/
def bumpArea : List (String × ℚ) → String → ℚ → List (String × ℚ)
  | [], area, d => [(area, d)]
  | (k, v) :: rest, area, d =>
    if k == area then (k, v + d) :: rest else (k, v) :: bumpArea rest area d

/-- Association-list read with the `|| 0` default. -/
def lookupQ (l : List (String × ℚ)) (k : String) : ℚ :=
  match l.find? (fun p => p.1 == k) with
  | some p => p.2
  | none => 0

/-- The `hoursPerArea` accumulation loop of `calculateLifeAreaBreakdown`:
only categorized events contribute. -/
def hoursPerArea (events : List CalendarEvent) : List (String × ℚ) :=
  events.foldl (fun acc event =>
    match categorizeEvent event with
    | some area => bumpArea acc area (getEventDurationMinutes event / 60)
    | none => acc) []

/-- `calculateLifeAreaBreakdown`: per configured life area, rounded scheduled
hours, the weekly target reused as-is, and the rounded delta. -/
def calculateLifeAreaBreakdown (events : List CalendarEvent)
    (prefs : UserPreferences) : List BreakdownEntry :=
  let h := hoursPerArea events
  prefs.lifeAreas.map (fun la =>
    { area := la.name,
      scheduledHours := round10 (lookupQ h la.name),
      targetHours := la.weeklyTargetHours,
      delta := round10 (lookupQ h la.name - la.weeklyTargetHours) })

-- ---------------------------------------------------------------------------
-- Free-slot discovery
-- ---------------------------------------------------------------------------

/-- A busy interval `{start: Date, end: Date}` (ms instants). -/
structure Ivl where
  start : Int
  «end» : Int
deriving Repr, DecidableEq

/-- The interval-merge loop of `findFreeSlots`, carrying the current last
merged interval `(s, e)` as the accumulator: a period starting after `e`
closes the current interval; otherwise it extends `e` to the max end. -/
def mergeGo (s e : Int) : List Ivl → List Ivl
  | [] => [⟨s, e⟩]
  | q :: rest =>
    if q.start > e then ⟨s, e⟩ :: mergeGo q.start q.«end» rest
    else mergeGo s (max e q.«end») rest

/-- Merge a start-sorted busy list (`merged` accumulation of the source). -/
def mergeIvls : List Ivl → List Ivl
  | [] => []
  | p :: rest => mergeGo p.start p.«end» rest

/-- The gap-walk of `findFreeSlots`: emit each gap between the cursor and the
next merged busy period (and the final gap up to `dayEnd`) when it meets
`minDuration`, tagging it with the energy level at the gap's start minute and
applying the optional energy filter. -/
def freeWalk (prefs : UserPreferences) (dayMidnight dayEnd : Int)
    (minDuration : ℚ) (filterEnergy : Option EnergyLevel) :
    Int → List Ivl → List TimeSlot
  | cursor, [] =>
    if cursor < dayEnd then
      let duration : ℚ := ((dayEnd - cursor : Int) : ℚ) / 60000
      if minDuration ≤ duration then
        let energy := getEnergyLevel ((cursor - dayMidnight).fdiv 60000) prefs
        if filterEnergy = none ∨ filterEnergy = some energy then
          [⟨cursor, dayEnd, duration, energy⟩]
        else []
      else []
    else []
  | cursor, p :: rest =>
    (if p.start > cursor then
      let duration : ℚ := ((p.start - cursor : Int) : ℚ) / 60000
      if minDuration ≤ duration then
        let energy := getEnergyLevel ((cursor - dayMidnight).fdiv 60000) prefs
        if filterEnergy = none ∨ filterEnergy = some energy then
          [⟨cursor, p.start, duration, energy⟩]
        else []
      else []
    else []) ++ freeWalk prefs dayMidnight dayEnd minDuration filterEnergy
      (max cursor p.«end») rest

/-- The busy list `findFreeSlots` accumulates and sorts: events clipped to
the `[07:00, 21:00)` window (events entirely outside it are discarded),
followed by the day's protected blocks (pushed unclipped, as in the source),
sorted ascending by start instant. -/
def busyIntervals (events : List CalendarEvent) (prefs : UserPreferences)
    (dayMidnight : Int) (dayName : String) : List Ivl :=
  let dayStart := dayMidnight + DAY_START_HOUR * 3600000
  let dayEnd := dayMidnight + DAY_END_HOUR * 3600000
  let busyEvents : List Ivl := events.filterMap (fun event =>
    let eStart := getEventStart event
    let eEnd := getEventEnd event
    if eEnd > dayStart ∧ eStart < dayEnd then
      some ⟨if eStart < dayStart then dayStart else eStart,
            if eEnd > dayEnd then dayEnd else eEnd⟩
    else none)
  let busyBlocks : List Ivl := prefs.schedulingRules.protectedBlocks.filterMap
    (fun block =>
      if block.day == dayName then
        some ⟨dayMidnight + block.start * 60000, dayMidnight + block.«end» * 60000⟩
      else none)
  jsSortBy (fun a b => decide (a.start ≤ b.start)) (busyEvents ++ busyBlocks)

/-- `findFreeSlots`: merge the sorted busy intervals and walk the gaps of the
`[07:00, 21:00)` window. `dayMidnight`/`dayName` stand for the local midnight
instant and weekday name the source derives from the `date` string (see the
module docstring on timezone handling). -/
def findFreeSlots (events : List CalendarEvent) (prefs : UserPreferences)
    (dayMidnight : Int) (dayName : String)
    (minDuration : ℚ := 30) (filterEnergy : Option EnergyLevel := none) :
    List TimeSlot :=
  let dayStart := dayMidnight + DAY_START_HOUR * 3600000
  let dayEnd := dayMidnight + DAY_END_HOUR * 3600000
  freeWalk prefs dayMidnight dayEnd minDuration filterEnergy dayStart
    (mergeIvls (busyIntervals events prefs dayMidnight dayName))

-- ---------------------------------------------------------------------------
-- Day orchestration
-- ---------------------------------------------------------------------------

/-- `analyzeDay`: concatenate the three detectors' conflicts (overlap,
overcommitment, energy mismatch, in that order), then density, breakdown,
free slots (default 30-minute minimum, no filter) and warnings. -/
def analyzeDay (events : List CalendarEvent) (prefs : UserPreferences)
    (date : String) (dayMidnight : Int) (dayName : String) : ScheduleAnalysis :=
  { date := date,
    density := calculateDensity events,
    conflicts := detectOverlaps events ++ detectOvercommitment events prefs ++
      detectEnergyMismatches events prefs,
    lifeAreaBreakdown := calculateLifeAreaBreakdown events prefs,
    freeSlots := findFreeSlots events prefs dayMidnight dayName 30 none,
    warnings := generateWarnings events prefs }

-- ---------------------------------------------------------------------------
-- Checklist carry-over (src/services/checklist.ts)
-- ---------------------------------------------------------------------------

/-- Item `size`: `"quick" | "medium" | "long"`. -/
inductive ItemSize where
  | quick
  | medium
  | long
deriving Repr, DecidableEq

/-- `ChecklistItem` from `src/types.ts`. -/
structure ChecklistItem where
  id : String
  area : String
  text : String
  size : Option ItemSize := none
  deadline : Option String := none
  completed : Bool
  carriedFrom : Option String := none
  completedAt : Option String := none
  completionNote : Option String := none
  billableHours : Option ℚ := none
deriving Repr, DecidableEq

/-- `DailyChecklist`. -/
structure DailyChecklist where
  date : String
  items : List ChecklistItem
deriving Repr, DecidableEq

/-- The storage collaborator as the checklist service sees it: the
`checklists/<date>.json` files keyed by their filename date, plus the result
of `getPreferences()` (`none` models a read failure, which
`getAreaPriority` catches). Value semantics model the production
`readJSON`/`writeJSON` (each read re-parses the file, so there is no
aliasing). -/
structure Store where
  checklists : List (String × DailyChecklist)
  prefs : Option UserPreferences
deriving Repr, DecidableEq

/-- `SIZE_PRIORITY[size ?? "medium"] ?? 2`. -/
def sizeRank (s : Option ItemSize) : Int :=
  match s with
  | some .quick => 1
  | some .medium => 2
  | some .long => 3
  | none => 2

/-- `areaPriority[area] ?? 999`: the `Record` built by `getAreaPriority`
assigns in `lifeAreas` order, later entries overwriting earlier ones. -/
def areaRank (priority : List (String × Int)) (area : String) : Int :=
  match (priority.filter (fun p => p.1 == area)).getLast? with
  | some p => p.2
  | none => 999

/-- The incomplete-items comparator of `sortItems` as a total preorder:
area priority (when a priority map is supplied — JS `if (areaPriority)` is
true even for an empty object, hence `Option`), then size rank. -/
def incompleteLe (priority : Option (List (String × Int)))
    (a b : ChecklistItem) : Bool :=
  match priority with
  | some m =>
    decide (areaRank m a.area < areaRank m b.area ∨
      (areaRank m a.area = areaRank m b.area ∧
        sizeRank a.size ≤ sizeRank b.size))
  | none => decide (sizeRank a.size ≤ sizeRank b.size)

/-- The completed-items comparator: ascending `completedAt ?? ""`
(JS string comparison; empty string sorts first). -/
def completedLe (a b : ChecklistItem) : Bool :=
  !(jsStrLt (b.completedAt.getD "") (a.completedAt.getD ""))

/-- `sortItems`: incomplete items (stably sorted by priority then size)
before completed items (stably sorted by completion time). -/
def sortItems (items : List ChecklistItem)
    (areaPriority : Option (List (String × Int)) := none) : List ChecklistItem :=
  jsSortBy (incompleteLe areaPriority) (items.filter (fun i => !i.completed)) ++
    jsSortBy completedLe (items.filter (fun i => i.completed))

/-- `getAreaPriority`: name-to-priority map from preferences; a preferences
read failure degrades to the empty map. -/
def getAreaPriority (st : Store) : List (String × Int) :=
  match st.prefs with
  | some p => p.lifeAreas.map (fun la => (la.name, la.priority))
  | none => []

/-- `loadChecklist`: read the checklist file for a date (`null` on failure). -/
def loadChecklist (st : Store) (date : String) : Option DailyChecklist :=
  (st.checklists.find? (fun p => p.1 == date)).map (·.2)

/-- `saveChecklist`: write (replace-or-insert) the file keyed by the
checklist's own `date`. -/
def saveChecklist (st : Store) (cl : DailyChecklist) : Store :=
  { st with checklists :=
      if st.checklists.any (fun p => p.1 == cl.date) then
        st.checklists.map (fun p => if p.1 == cl.date then (p.1, cl) else p)
      else st.checklists ++ [(cl.date, cl)] }

/-- The date `findMostRecentChecklist` picks: stored dates strictly below
`beforeDate` (JS string `<`), sorted ascending, reversed, first. -/
def mostRecentDate (st : Store) (beforeDate : String) : Option String :=
  ((jsSortBy (fun a b => !jsStrLt b a)
    ((st.checklists.map (·.1)).filter (fun d => jsStrLt d beforeDate))).reverse).head?

/-- `findMostRecentChecklist`: load the most recent strictly-prior date's
checklist. -/
def findMostRecentChecklist (st : Store) (beforeDate : String) :
    Option DailyChecklist :=
  (mostRecentDate st beforeDate).bind (loadChecklist st)

/-- The carry-over loop of `getChecklist`: copy each incomplete item with a
freshly generated id (`randomUUID` modelled by the generator `gen` applied to
a running counter) and `carriedFrom: item.carriedFrom || prior.date`. -/
def carryLoop (gen : Nat → String) (ctr : Nat) (priorDate : String) :
    List ChecklistItem → List ChecklistItem × Nat
  | [] => ([], ctr)
  | item :: rest =>
    if item.completed then carryLoop gen ctr priorDate rest
    else
      let copied := { item with
        id := gen ctr,
        carriedFrom := some (jsOrStr item.carriedFrom priorDate) }
      let (more, ctr') := carryLoop gen (ctr + 1) priorDate rest
      (copied :: more, ctr')

/-- `getChecklist(date?)`: return the stored checklist re-sorted, or build a
new one for the target date by carrying over the most recent prior
checklist's incomplete items, persisting it immediately (even if empty).
`today` stands for `todayDate()` (the injected clock); `gen`/`ctr` model
`randomUUID`. -/
def getChecklist (gen : Nat → String) (ctr : Nat) (st : Store)
    (date : Option String) (today : String) :
    DailyChecklist × Store × Nat :=
  let targetDate := jsOrStr date today
  let priority := getAreaPriority st
  match loadChecklist st targetDate with
  | some existing =>
    ({ existing with items := sortItems existing.items (some priority) }, st, ctr)
  | none =>
    let (carriedItems, ctr') :=
      match findMostRecentChecklist st targetDate with
      | some prior => carryLoop gen ctr prior.date prior.items
      | none => ([], ctr)
    let checklist : DailyChecklist :=
      { date := targetDate, items := sortItems carriedItems (some priority) }
    (checklist, saveChecklist st checklist, ctr')

/-- The `updates` record accepted by `updateItem`; `none` models an absent
(`undefined`) field, skipped by the `!== undefined` guards. -/
structure ItemUpdates where
  text : Option String := none
  area : Option String := none
  size : Option ItemSize := none
  deadline : Option String := none
  completed : Option Bool := none
deriving Repr, DecidableEq

/-- The field-by-field mutation `updateItem` applies to the found item
(`now` stands for `new Date().toISOString()`). -/
def applyUpdates (u : ItemUpdates) (now : String) (item : ChecklistItem) :
    ChecklistItem :=
  let item := match u.text with | some t => { item with text := t } | none => item
  let item := match u.area with | some a => { item with area := a } | none => item
  let item := match u.size with | some s => { item with size := some s } | none => item
  let item := match u.deadline with | some d => { item with deadline := some d } | none => item
  match u.completed with
  | some c =>
    { item with completed := c, completedAt := if c then some now else none }
  | none => item

/-- Mutate the first item satisfying `p` in place (the source's
`items.find(...)` followed by field assignments aliases one element). -/
def mutateFirst (p : ChecklistItem → Bool) (f : ChecklistItem → ChecklistItem) :
    List ChecklistItem → List ChecklistItem
  | [] => []
  | i :: rest => if p i then f i :: rest else i :: mutateFirst p f rest

/-- `updateItem`: resolve the id against today's checklist (creating it via
carry-over if needed), throw `Checklist item not found: <id>` when absent,
otherwise mutate, re-sort and persist. The store and counter survive a
throw (the carry-over write has already happened). -/
def updateItem (gen : Nat → String) (ctr : Nat) (st : Store) (today now : String)
    (id : String) (updates : ItemUpdates) :
    Except String DailyChecklist × Store × Nat :=
  let (checklist, st1, ctr1) := getChecklist gen ctr st none today
  match checklist.items.find? (fun i => i.id == id) with
  | none => (.error ("Checklist item not found: " ++ id), st1, ctr1)
  | some _ =>
    let priority := getAreaPriority st1
    let items := mutateFirst (fun i => i.id == id) (applyUpdates updates now)
      checklist.items
    let checklist' := { checklist with items := sortItems items (some priority) }
    (.ok checklist', saveChecklist st1 checklist', ctr1)

/-- `removeItem`: resolve the id against today's checklist, throw
`Checklist item not found: <id>` when absent, otherwise splice it out and
persist. -/
def removeItem (gen : Nat → String) (ctr : Nat) (st : Store) (today : String)
    (id : String) : Except String DailyChecklist × Store × Nat :=
  let (checklist, st1, ctr1) := getChecklist gen ctr st none today
  match checklist.items.findIdx? (fun i => i.id == id) with
  | none => (.error ("Checklist item not found: " ++ id), st1, ctr1)
  | some idx =>
    let checklist' := { checklist with items := checklist.items.eraseIdx idx }
    (.ok checklist', saveChecklist st1 checklist', ctr1)

-- ---------------------------------------------------------------------------
-- Specification-side definitions used to state the claims
-- ---------------------------------------------------------------------------

/-- All ordered pairs `(l[i], l[j])` with `i < j`, in loop order: the
unordered pairs of distinct events the spec quantifies over. -/
def orderedPairs : List α → List (α × α)
  | [] => []
  | x :: xs => xs.map (fun y => (x, y)) ++ orderedPairs xs

/-- Numeric density band, ordered `light < moderate < heavy < overloaded`. -/
def densityScore : Density → Nat
  | .light => 1
  | .moderate => 2
  | .heavy => 3
  | .overloaded => 4

/-- Minutes of a busy interval lying inside the `[07:00, 21:00)` analysis
window of the day (the claim's "clipped to the window" measure). -/
def windowClipMinutes (dayMidnight : Int) (iv : Ivl) : ℚ :=
  ((max 0 (min iv.«end» (dayMidnight + DAY_END_HOUR * 3600000) -
    max iv.start (dayMidnight + DAY_START_HOUR * 3600000)) : Int) : ℚ) / 60000

/-- Total in-window minutes of the merged busy intervals of the day. -/
def mergedBusyWindowMinutes (events : List CalendarEvent)
    (prefs : UserPreferences) (dayMidnight : Int) (dayName : String) : ℚ :=
  ((mergeIvls (busyIntervals events prefs dayMidnight dayName)).map
    (windowClipMinutes dayMidnight)).sum

/-- Sum of the durations of a slot list. -/
def slotMinutes (slots : List TimeSlot) : ℚ := (slots.map (·.duration)).sum

/-- The carried-item list the spec describes: the prior checklist's
incomplete items in order, each with a freshly generated id and `carriedFrom`
set to the source date unless a non-empty lineage is already present. -/
def carriedSpec (gen : Nat → String) (ctr : Nat) (prior : DailyChecklist) :
    List ChecklistItem :=
  ((prior.items.filter (fun i => !i.completed)).enumFrom ctr).map (fun p =>
    { p.2 with
      id := gen p.1,
      carriedFrom := some (match p.2.carriedFrom with
        | some s => if s == "" then prior.date else s
        | none => prior.date) })

-- ---------------------------------------------------------------------------
-- Generic lemmas about the stable insertion sort
-- ---------------------------------------------------------------------------


theorem insertLe_perm (le : α → α → Bool) (x : α) (l : List α) :
    List.Perm (insertLe le x l) (x :: l) := by
  induction l with
  | nil => exact List.Perm.refl _
  | cons y ys ih =>
    simp only [insertLe]
    split
    · exact (ih.cons y).trans (List.Perm.swap x y ys)
    · exact List.Perm.refl _

theorem sortAux_perm (le : α → α → Bool) :
    ∀ (l acc : List α), List.Perm (sortAux le acc l) (acc ++ l) := by
  intro l
  induction l with
  | nil => intro acc; simp [sortAux]
  | cons x xs ih =>
    intro acc
    simp only [sortAux]
    refine (ih (insertLe le x acc)).trans ?_
    have h1 : List.Perm (insertLe le x acc ++ xs) ((x :: acc) ++ xs) :=
      (insertLe_perm le x acc).append_right xs
    refine h1.trans ?_
    simp only [List.cons_append]
    exact (List.perm_middle).symm

theorem jsSortBy_perm (le : α → α → Bool) (l : List α) :
    List.Perm (jsSortBy le l) l := by
  simpa using sortAux_perm le l []

theorem insertLe_pairwise (le : α → α → Bool)
    (htot : ∀ a b, le a b || le b a)
    (htrans : ∀ a b c, le a b = true → le b c = true → le a c = true)
    (x : α) (l : List α)
    (h : l.Pairwise (fun a b => le a b = true)) :
    (insertLe le x l).Pairwise (fun a b => le a b = true) := by
  induction l with
  | nil => simp [insertLe]
  | cons y ys ih =>
    rcases h with _ | ⟨hy, hys⟩
    simp only [insertLe]
    split
    · rename_i hyx
      refine List.Pairwise.cons ?_ (ih hys)
      intro z hz
      have hm := List.mem_cons.mp ((insertLe_perm le x ys).mem_iff.mp hz)
      rcases hm with rfl | hmem
      · exact hyx
      · exact hy z hmem
    · rename_i hyx
      have hxy : le x y = true := by
        have h2 := htot x y
        cases hxy' : le x y with
        | true => rfl
        | false =>
          cases hyx' : le y x with
          | true => exact absurd hyx' hyx
          | false => simp [hxy', hyx'] at h2
      refine List.Pairwise.cons ?_ (List.Pairwise.cons hy hys)
      intro z hz
      rcases List.mem_cons.mp hz with rfl | hmem
      · exact hxy
      · exact htrans x y z hxy (hy z hmem)

theorem sortAux_pairwise (le : α → α → Bool)
    (htot : ∀ a b, le a b || le b a)
    (htrans : ∀ a b c, le a b = true → le b c = true → le a c = true) :
    ∀ (l acc : List α), acc.Pairwise (fun a b => le a b = true) →
      (sortAux le acc l).Pairwise (fun a b => le a b = true) := by
  intro l
  induction l with
  | nil => intro acc h; exact h
  | cons x xs ih =>
    intro acc h
    exact ih _ (insertLe_pairwise le htot htrans x acc h)

theorem jsSortBy_pairwise (le : α → α → Bool)
    (htot : ∀ a b, le a b || le b a)
    (htrans : ∀ a b c, le a b = true → le b c = true → le a c = true)
    (l : List α) :
    (jsSortBy le l).Pairwise (fun a b => le a b = true) :=
  sortAux_pairwise le htot htrans l [] (List.Pairwise.nil)

-- ---------------------------------------------------------------------------
-- Concrete fixtures (mirroring analysis.test.ts) used by witnesses
-- ---------------------------------------------------------------------------

/-- The `basePrefs` fixture of `analysis.test.ts` (times as minute-of-day). -/
def basePrefs : UserPreferences :=
  { energyPatterns :=
      { highEnergy := [⟨480, 660⟩],
        mediumEnergy := [⟨660, 780⟩, ⟨840, 960⟩],
        lowEnergy := [⟨780, 840⟩, ⟨960, 1080⟩] },
    lifeAreas :=
      [⟨"work", 40, 1⟩, ⟨"fitness", 5, 2⟩, ⟨"hobbies", 5, 3⟩,
       ⟨"personal", 10, 4⟩, ⟨"social", 4, 5⟩],
    schedulingRules :=
      { minBreakBetweenEvents := 15, maxMeetingsPerDay := 6,
        protectedBlocks := [⟨"monday", 720, 780, "Lunch"⟩],
        preferredPlanningDay := "sunday" } }

/-- The `makeEvent` helper of `analysis.test.ts`. -/
def makeEvent (id summary : String) (s e : Int) : CalendarEvent :=
  { id := some id, summary := some summary,
    start := some { dateTime := .valid s },
    «end» := some { dateTime := .valid e } }

/-- Instant at `h:m` of a day whose local midnight is instant 0. -/
def hm (h m : Int) : Int := (h * 60 + m) * 60000

-- ---------------------------------------------------------------------------
-- C7: energy classification precedence
-- ---------------------------------------------------------------------------

theorem findRange_none_iff (l : List TimeRange) (m : Int) :
    l.find? (fun r => decide (r.start ≤ m ∧ m < r.«end»)) = none ↔
      ¬ ∃ r ∈ l, r.start ≤ m ∧ m < r.«end» := by
  rw [List.find?_eq_none]
  simp

/-- C7: for every minute-of-day and preferences, classification tests the
high-energy ranges first, then medium, then low, each with the half-open
test `start ≤ m < end`; when no range of any list matches, the result is
medium. -/
theorem getEnergyLevel_precedence (m : Int) (prefs : UserPreferences) :
    (getEnergyLevel m prefs = .high ↔
      ∃ r ∈ prefs.energyPatterns.highEnergy, r.start ≤ m ∧ m < r.«end») ∧
    ((¬ ∃ r ∈ prefs.energyPatterns.highEnergy, r.start ≤ m ∧ m < r.«end») →
      (∃ r ∈ prefs.energyPatterns.mediumEnergy, r.start ≤ m ∧ m < r.«end») →
      getEnergyLevel m prefs = .medium) ∧
    (getEnergyLevel m prefs = .low ↔
      (¬ ∃ r ∈ prefs.energyPatterns.highEnergy, r.start ≤ m ∧ m < r.«end») ∧
      (¬ ∃ r ∈ prefs.energyPatterns.mediumEnergy, r.start ≤ m ∧ m < r.«end») ∧
      ∃ r ∈ prefs.energyPatterns.lowEnergy, r.start ≤ m ∧ m < r.«end») ∧
    ((¬ ∃ r ∈ prefs.energyPatterns.highEnergy, r.start ≤ m ∧ m < r.«end») →
      (¬ ∃ r ∈ prefs.energyPatterns.mediumEnergy, r.start ≤ m ∧ m < r.«end») →
      (¬ ∃ r ∈ prefs.energyPatterns.lowEnergy, r.start ≤ m ∧ m < r.«end») →
      getEnergyLevel m prefs = .medium) := by
  unfold getEnergyLevel
  cases hh : prefs.energyPatterns.highEnergy.find?
      (fun r => decide (r.start ≤ m ∧ m < r.«end»)) with
  | some rh =>
    have hex : ∃ r ∈ prefs.energyPatterns.highEnergy, r.start ≤ m ∧ m < r.«end» := by
      have h1 := List.find?_some hh
      have h2 := List.mem_of_find?_eq_some hh
      exact ⟨rh, h2, by simpa using h1⟩
    simp [hex]
  | none =>
    have hnex := (findRange_none_iff _ m).mp hh
    cases hmid : prefs.energyPatterns.mediumEnergy.find?
        (fun r => decide (r.start ≤ m ∧ m < r.«end»)) with
    | some rm =>
      have hex : ∃ r ∈ prefs.energyPatterns.mediumEnergy, r.start ≤ m ∧ m < r.«end» := by
        have h1 := List.find?_some hmid
        have h2 := List.mem_of_find?_eq_some hmid
        exact ⟨rm, h2, by simpa using h1⟩
      simp [hnex, hex]
    | none =>
      have hnex2 := (findRange_none_iff _ m).mp hmid
      cases hlow : prefs.energyPatterns.lowEnergy.find?
          (fun r => decide (r.start ≤ m ∧ m < r.«end»)) with
      | some rl =>
        have hex : ∃ r ∈ prefs.energyPatterns.lowEnergy, r.start ≤ m ∧ m < r.«end» := by
          have h1 := List.find?_some hlow
          have h2 := List.mem_of_find?_eq_some hlow
          exact ⟨rl, h2, by simpa using h1⟩
        simp [hnex, hnex2, hex]
      | none =>
        have hnex3 := (findRange_none_iff _ m).mp hlow
        simp [hnex, hnex2, hnex3]

/-- C7 witness: the theorem applied at concrete inputs — 9:00 falls in the
declared high range; 13:30 classifies low because no high or medium range
matches but a low one does; 5:00 defaults to medium with no match at all. -/
theorem getEnergyLevel_precedence_witness :
    getEnergyLevel 540 basePrefs = .high ∧
    getEnergyLevel 810 basePrefs = .low ∧
    getEnergyLevel 300 basePrefs = .medium := by
  refine ⟨?_, ?_, ?_⟩
  · exact (getEnergyLevel_precedence 540 basePrefs).1.mpr
      ⟨⟨480, 660⟩, by decide, by decide⟩
  · exact (getEnergyLevel_precedence 810 basePrefs).2.2.1.mpr
      ⟨by decide, by decide, ⟨780, 840⟩, by decide, by decide⟩
  · exact (getEnergyLevel_precedence 300 basePrefs).2.2.2
      (by decide) (by decide) (by decide)

-- ---------------------------------------------------------------------------
-- Conflict-type inventories of the three detectors
-- ---------------------------------------------------------------------------

theorem detectOverlaps_type {events : List CalendarEvent} {c : Conflict}
    (hc : c ∈ detectOverlaps events) : c.type = .overlap := by
  simp only [detectOverlaps, List.mem_flatMap] at hc
  obtain ⟨i, _, j, _, hj⟩ := hc
  simp only [List.mem_ite_nil_right, List.mem_singleton] at hj
  rw [hj.2]
  rfl

theorem detectOvercommitment_type {events : List CalendarEvent}
    {prefs : UserPreferences} {c : Conflict}
    (hc : c ∈ detectOvercommitment events prefs) : c.type = .overcommitment := by
  by_cases h : (events.length : Int) > prefs.schedulingRules.maxMeetingsPerDay
  · simp only [detectOvercommitment, h, if_true, List.mem_singleton] at hc
    rw [hc]
  · simp [detectOvercommitment, h] at hc

theorem detectEnergyMismatches_type {events : List CalendarEvent}
    {prefs : UserPreferences} {c : Conflict}
    (hc : c ∈ detectEnergyMismatches events prefs) : c.type = .energy_mismatch := by
  simp only [detectEnergyMismatches, List.mem_flatMap] at hc
  obtain ⟨e, _, he⟩ := hc
  by_cases h1 : getEventDurationMinutes e < 60
  · simp [h1] at he
  · by_cases h2 : getEnergyLevel (minuteOfDayOf (getEventStart e)) prefs = .low
    · simp only [h1, if_false, h2, if_true, List.mem_singleton] at he
      rw [he]
    · simp [h1, h2] at he

-- ---------------------------------------------------------------------------
-- C6: overcommitment detection
-- ---------------------------------------------------------------------------

/-- C6: `analyzeDay` emits an overcommitment conflict iff the number of
events (all events, not just meetings) strictly exceeds
`schedulingRules.maxMeetingsPerDay`; when emitted it is exactly one conflict
whose `affectedEvents` covers all of the day's events (falsy identifiers
dropped), with severity high when the count exceeds the maximum by more than
2 and medium otherwise. -/
theorem analyzeDay_overcommitment (events : List CalendarEvent)
    (prefs : UserPreferences) (date : String) (dayMidnight : Int)
    (dayName : String) :
    (analyzeDay events prefs date dayMidnight dayName).conflicts.filter
        (fun c => c.type == ConflictType.overcommitment) =
      (if (events.length : Int) > prefs.schedulingRules.maxMeetingsPerDay then
        [{ type := .overcommitment,
           severity :=
             if (events.length : Int) > prefs.schedulingRules.maxMeetingsPerDay + 2
             then .high else .medium,
           description := toString events.length ++ " events scheduled (max: " ++
             toString prefs.schedulingRules.maxMeetingsPerDay ++ ")",
           affectedEvents := dropFalsy (events.map (·.id)),
           suggestedResolutions :=
             ["Cancel or reschedule lower-priority events",
              "Combine related meetings"] }]
      else []) := by
  have h1 : (detectOverlaps events).filter
      (fun c => c.type == ConflictType.overcommitment) = [] := by
    rw [List.filter_eq_nil_iff]
    intro c hc
    simp [detectOverlaps_type hc]
  have h3 : (detectEnergyMismatches events prefs).filter
      (fun c => c.type == ConflictType.overcommitment) = [] := by
    rw [List.filter_eq_nil_iff]
    intro c hc
    simp [detectEnergyMismatches_type hc]
  have h2 : (detectOvercommitment events prefs).filter
      (fun c => c.type == ConflictType.overcommitment) =
      detectOvercommitment events prefs := by
    rw [List.filter_eq_self]
    intro c hc
    simp [detectOvercommitment_type hc]
  show (detectOverlaps events ++ detectOvercommitment events prefs ++
      detectEnergyMismatches events prefs).filter
        (fun c => c.type == ConflictType.overcommitment) = _
  rw [List.filter_append, List.filter_append, h1, h2, h3]
  simp only [List.nil_append, List.append_nil]
  unfold detectOvercommitment
  rfl

-- ---------------------------------------------------------------------------
-- C2: life-area keyword table and first-match categorization
-- ---------------------------------------------------------------------------

theorem catLoop_eq_find (text : String) :
    ∀ table : List (String × List String),
      catLoop text table =
        (table.find? (fun p => p.2.any (fun kw => strIncludes text kw))).map
          Prod.fst := by
  intro table
  induction table with
  | nil => rfl
  | cons hd tl ih =>
    obtain ⟨area, keywords⟩ := hd
    by_cases h : keywords.any (fun kw => strIncludes text kw)
    · simp [catLoop, List.find?_cons, h]
    · simp only [catLoop, h, if_false]
      rw [ih]
      simp [List.find?_cons, h]

theorem hoursPerArea_go_none {event : CalendarEvent}
    (h : categorizeEvent event = none) (events : List CalendarEvent) :
    ∀ acc, (event :: events).foldl (fun acc event =>
      match categorizeEvent event with
      | some area => bumpArea acc area (getEventDurationMinutes event / 60)
      | none => acc) acc =
    events.foldl (fun acc event =>
      match categorizeEvent event with
      | some area => bumpArea acc area (getEventDurationMinutes event / 60)
      | none => acc) acc := by
  intro acc
  simp only [List.foldl_cons, h]

/-- C2 counterexample: the claim orders the specific areas (fitness,
learning, ...) before the broad work area, but the built-in table's first
area is `work` and it has no `learning` area at all; consequently the event
"Gym workout", which matches the fitness keyword `workout`, is categorized
as `work` (the work keyword `work` is a substring of `workout` and work is
tested first). -/
theorem lifeAreaKeywords_counterexample :
    (LIFE_AREA_KEYWORDS.map Prod.fst).head? = some "work" ∧
    "learning" ∉ LIFE_AREA_KEYWORDS.map Prod.fst ∧
    categorizeEvent { id := some "1", summary := some "Gym workout" } =
      some "work" ∧
    "workout" ∈ (LIFE_AREA_KEYWORDS.getD 1 ("", [])).2 ∧
    strIncludes (eventText { id := some "1", summary := some "Gym workout" })
      "workout" = true := by
  refine ⟨rfl, by decide, rfl, by decide, rfl⟩

/-- C2 (amended): the built-in keyword table is ordered
`work, fitness, hobbies, personal, social` (the broad work area first, and
with no `learning` area); for every event, the first area in table order
having any keyword occurring as a substring of the lowercased
`"{title} {description}"` text is the event's area; an event matching no
area contributes to no area's hours. -/
theorem categorizeEvent_firstMatch :
    (LIFE_AREA_KEYWORDS.map Prod.fst =
      ["work", "fitness", "hobbies", "personal", "social"]) ∧
    (∀ event : CalendarEvent,
      categorizeEvent event =
        (LIFE_AREA_KEYWORDS.find?
          (fun p => p.2.any (fun kw => strIncludes (eventText event) kw))).map
            Prod.fst) ∧
    (∀ (event : CalendarEvent) (events : List CalendarEvent)
        (prefs : UserPreferences), categorizeEvent event = none →
      calculateLifeAreaBreakdown (event :: events) prefs =
        calculateLifeAreaBreakdown events prefs) := by
  refine ⟨rfl, ?_, ?_⟩
  · intro event
    exact catLoop_eq_find (eventText event) LIFE_AREA_KEYWORDS
  · intro event events prefs h
    unfold calculateLifeAreaBreakdown hoursPerArea
    rw [hoursPerArea_go_none h events []]

/-- C2 witness: the amended theorem applied at concrete inputs — an event
matching no keyword ("Untitled block") leaves the breakdown exactly as if it
were absent. -/
theorem categorizeEvent_firstMatch_witness :
    calculateLifeAreaBreakdown
        [{ id := some "1", summary := some "Untitled block" },
         makeEvent "2" "Sprint planning" (hm 10 0) (hm 11 0)] basePrefs =
      calculateLifeAreaBreakdown
        [makeEvent "2" "Sprint planning" (hm 10 0) (hm 11 0)] basePrefs :=
  categorizeEvent_firstMatch.2.2
    { id := some "1", summary := some "Untitled block" }
    [makeEvent "2" "Sprint planning" (hm 10 0) (hm 11 0)] basePrefs rfl

-- ---------------------------------------------------------------------------
-- C3: the categoryKeywords override is never consulted
-- ---------------------------------------------------------------------------

/-- Preferences carrying a `categoryKeywords` override that maps the only
configured life area (`zeta`) to the keyword `meeting`. -/
def zetaPrefs : UserPreferences :=
  { basePrefs with
    lifeAreas := [⟨"zeta", 1, 1⟩],
    categoryKeywords := some [("zeta", ["meeting"])] }

/-- C3 (code bug): the life-area breakdown `analyzeDay` returns is invariant
under any change to `preferences.categoryKeywords`, because `categorizeEvent`
only ever reads the built-in table; at the failing input, an event titled
"Team meeting" contributes nothing to the `zeta` area even though the
supplied override maps `zeta` to the keyword `meeting` (under the claim it
would receive the event's hour — instead the built-in table categorizes it
as `work`). -/
theorem categoryKeywords_ignored :
    (∀ (events : List CalendarEvent) (prefs : UserPreferences)
        (kws : Option (List (String × List String))) (date : String)
        (dayMidnight : Int) (dayName : String),
      (analyzeDay events { prefs with categoryKeywords := kws } date
          dayMidnight dayName).lifeAreaBreakdown =
        (analyzeDay events prefs date dayMidnight dayName).lifeAreaBreakdown) ∧
    ((calculateLifeAreaBreakdown [makeEvent "1" "Team meeting" (hm 9 0) (hm 10 0)]
        zetaPrefs).map (fun b => (b.area, b.scheduledHours)) = [("zeta", 0)]) ∧
    categorizeEvent (makeEvent "1" "Team meeting" (hm 9 0) (hm 10 0)) =
      some "work" := by
  refine ⟨?_, by with_unfolding_all rfl, rfl⟩
  intro events prefs kws date dayMidnight dayName
  cases prefs
  rfl

-- ---------------------------------------------------------------------------
-- C1: the index loops of detectOverlaps enumerate the ordered pairs
-- ---------------------------------------------------------------------------

theorem range'_succ_map (s m : Nat) :
    List.range' (s + 1) m = (List.range' s m).map Nat.succ := by
  rw [List.range'_eq_map_range, List.range'_eq_map_range, List.map_map]
  apply List.map_congr_left
  intro k _
  simp [Nat.succ_add, Nat.add_comm]

theorem flatMap_range_ite (g : CalendarEvent → Conflict)
    (p : CalendarEvent → Bool) :
    ∀ es : List CalendarEvent,
      (List.range es.length).flatMap
          (fun k => if p (es.getD k default) then [g (es.getD k default)] else []) =
        (es.filter p).map g := by
  intro es
  induction es with
  | nil => rfl
  | cons b bs ih =>
    rw [List.length_cons, List.range_succ_eq_map, List.flatMap_cons,
      List.flatMap_map]
    simp only [List.getD_cons_zero, Function.comp_def, List.getD_cons_succ]
    rw [List.filter_cons]
    by_cases hb : p b
    · simp only [hb, if_true, List.map_cons]
      rw [ih]
      rfl
    · simp only [hb, if_false, Bool.false_eq_true, List.map]
      rw [ih]
      simp

theorem detectOverlaps_cons (e : CalendarEvent) (es : List CalendarEvent) :
    detectOverlaps (e :: es) =
      ((es.filter (fun b => overlapB e b)).map (fun b => mkOverlapConflict e b)) ++
        detectOverlaps es := by
  unfold detectOverlaps
  rw [List.length_cons, List.range_succ_eq_map, List.flatMap_cons,
    List.flatMap_map]
  congr 1
  · -- the i = 0 iteration pairs e with each later event
    have h2 : es.length + 1 - (0 + 1) = es.length := by omega
    rw [h2, range'_succ_map 0, List.flatMap_map, ← List.range_eq_range']
    refine Eq.trans (List.flatMap_congr ?_)
      (flatMap_range_ite (fun b => mkOverlapConflict e b)
        (fun b => overlapB e b) es)
    intro j _
    simp [Function.comp, List.getD_cons_succ, List.getD_cons_zero]
  · -- the i ≥ 1 iterations are exactly detectOverlaps es
    apply List.flatMap_congr
    intro k _
    simp only [Function.comp_def]
    have h3 : es.length + 1 - (Nat.succ k + 1) = es.length - (k + 1) := by omega
    rw [h3, range'_succ_map, List.flatMap_map]
    apply List.flatMap_congr
    intro j _
    simp [Function.comp, List.getD_cons_succ]

theorem detectOverlaps_eq_pairs (events : List CalendarEvent) :
    detectOverlaps events =
      ((orderedPairs events).filter (fun ab => overlapB ab.1 ab.2)).map
        (fun ab => mkOverlapConflict ab.1 ab.2) := by
  induction events with
  | nil => rfl
  | cons e es ih =>
    rw [detectOverlaps_cons, ih]
    simp only [orderedPairs, List.filter_append, List.map_append]
    congr 1
    rw [List.filter_map, List.map_map]
    rfl

/-- C1: the overlap-type conflicts `analyzeDay` returns are exactly one
conflict per unordered pair of distinct events satisfying the strict test
`startA < endB ∧ startB < endA` (so back-to-back events with zero gap are
never flagged), each with severity high and `affectedEvents` listing the two
events' identifiers with falsy or missing identifiers dropped. -/
theorem analyzeDay_overlapConflicts (events : List CalendarEvent)
    (prefs : UserPreferences) (date : String) (dayMidnight : Int)
    (dayName : String) :
    (analyzeDay events prefs date dayMidnight dayName).conflicts.filter
        (fun c => c.type == ConflictType.overlap) =
      ((orderedPairs events).filter (fun ab =>
        decide (getEventStart ab.1 < getEventEnd ab.2 ∧
          getEventStart ab.2 < getEventEnd ab.1))).map
        (fun ab =>
          { type := .overlap,
            severity := .high,
            description := "\"" ++ jsOrEmpty ab.1.summary ++
              "\" overlaps with \"" ++ jsOrEmpty ab.2.summary ++ "\"",
            affectedEvents := dropFalsy [ab.1.id, ab.2.id],
            suggestedResolutions :=
              ["Reschedule one of the events", "Shorten one of the events"] }) := by
  have h1 : (detectOverlaps events).filter
      (fun c => c.type == ConflictType.overlap) = detectOverlaps events := by
    rw [List.filter_eq_self]
    intro c hc
    simp [detectOverlaps_type hc]
  have h2 : (detectOvercommitment events prefs).filter
      (fun c => c.type == ConflictType.overlap) = [] := by
    rw [List.filter_eq_nil_iff]
    intro c hc
    simp [detectOvercommitment_type hc]
  have h3 : (detectEnergyMismatches events prefs).filter
      (fun c => c.type == ConflictType.overlap) = [] := by
    rw [List.filter_eq_nil_iff]
    intro c hc
    simp [detectEnergyMismatches_type hc]
  show (detectOverlaps events ++ detectOvercommitment events prefs ++
      detectEnergyMismatches events prefs).filter
        (fun c => c.type == ConflictType.overlap) = _
  rw [List.filter_append, List.filter_append, h1, h2, h3,
    List.append_nil, List.append_nil, detectOverlaps_eq_pairs]
  rfl

-- ---------------------------------------------------------------------------
-- C5: density monotonicity
-- ---------------------------------------------------------------------------

theorem totalScheduledMinutes_eq_sum (events : List CalendarEvent) :
    totalScheduledMinutes events =
      (events.map getEventDurationMinutes).sum := by
  have key : ∀ (l : List CalendarEvent) (a : ℚ),
      l.foldl (fun sum e => sum + getEventDurationMinutes e) a =
        a + (l.map getEventDurationMinutes).sum := by
    intro l
    induction l with
    | nil => intro a; simp
    | cons e es ih =>
      intro a
      simp only [List.foldl_cons, List.map_cons, List.sum_cons, ih]
      ring
  simpa [totalScheduledMinutes] using key events 0

/-- C5 counterexample: `[5-hour event]` is a subset (even a sublist) of
`[5-hour event, event whose end precedes its start]`, yet the superset's
total is smaller and its density band drops from moderate to light, because
a malformed event (e.g. one with a missing end marker, which degrades to the
epoch) contributes a negative duration. -/
theorem density_monotone_counterexample :
    [makeEvent "1" "Work block" (hm 9 0) (hm 14 0)].Sublist
      [makeEvent "1" "Work block" (hm 9 0) (hm 14 0),
       makeEvent "2" "Bad" (hm 12 0) (hm 10 0)] ∧
    calculateDensity [makeEvent "1" "Work block" (hm 9 0) (hm 14 0)] =
      .moderate ∧
    calculateDensity
      [makeEvent "1" "Work block" (hm 9 0) (hm 14 0),
       makeEvent "2" "Bad" (hm 12 0) (hm 10 0)] = .light ∧
    densityScore (calculateDensity
      [makeEvent "1" "Work block" (hm 9 0) (hm 14 0),
       makeEvent "2" "Bad" (hm 12 0) (hm 10 0)]) <
      densityScore (calculateDensity
        [makeEvent "1" "Work block" (hm 9 0) (hm 14 0)]) := by
  refine ⟨List.Sublist.cons₂ _ (List.nil_sublist _), ?_, ?_, ?_⟩
  · with_unfolding_all rfl
  · with_unfolding_all rfl
  · with_unfolding_all decide

/-- C5 (amended): for event lists `E1 ⊆ E2` (as multisets) in which every
event of `E2` has a nonnegative duration (end not before start), the total
scheduled minutes of `E2` are at least those of `E1` and the density band of
`E2` is at least the band of `E1` in the order
light < moderate < heavy < overloaded; without the nonnegativity proviso a
malformed event with end before start breaks monotonicity. -/
theorem density_monotone (E1 E2 : List CalendarEvent)
    (hsub : E1.Subperm E2)
    (hnn : ∀ e ∈ E2, 0 ≤ getEventDurationMinutes e) :
    totalScheduledMinutes E1 ≤ totalScheduledMinutes E2 ∧
    densityScore (calculateDensity E1) ≤ densityScore (calculateDensity E2) := by
  have hmap : (E1.map getEventDurationMinutes).Subperm
      (E2.map getEventDurationMinutes) := by
    obtain ⟨l, hperm, hsl⟩ := hsub
    exact ⟨l.map getEventDurationMinutes, hperm.map _, hsl.map _⟩
  have hle : ((E1.map getEventDurationMinutes : List ℚ) : Multiset ℚ) ≤
      ((E2.map getEventDurationMinutes : List ℚ) : Multiset ℚ) := by
    exact (Multiset.coe_le).mpr hmap
  obtain ⟨u, hu⟩ := Multiset.le_iff_exists_add.mp hle
  have husum : 0 ≤ u.sum := by
    apply Multiset.sum_nonneg
    intro x hx
    have hxin : x ∈ ((E2.map getEventDurationMinutes : List ℚ) : Multiset ℚ) := by
      rw [hu]
      exact Multiset.mem_add.mpr (Or.inr hx)
    rw [Multiset.mem_coe, List.mem_map] at hxin
    obtain ⟨e, he, rfl⟩ := hxin
    exact hnn e he
  have hsum : totalScheduledMinutes E1 ≤ totalScheduledMinutes E2 := by
    rw [totalScheduledMinutes_eq_sum, totalScheduledMinutes_eq_sum]
    have h1 : ((E2.map getEventDurationMinutes : List ℚ) : Multiset ℚ).sum =
        ((E1.map getEventDurationMinutes : List ℚ) : Multiset ℚ).sum + u.sum := by
      rw [hu, Multiset.sum_add]
    simp only [Multiset.sum_coe] at h1
    linarith
  refine ⟨hsum, ?_⟩
  have hdiv : totalScheduledMinutes E1 / 60 ≤ totalScheduledMinutes E2 / 60 :=
    (div_le_div_iff_of_pos_right (by norm_num : (0:ℚ) < 60)).mpr hsum
  unfold calculateDensity
  dsimp only
  split_ifs <;> simp [densityScore] <;> linarith

/-- C5 witness: the amended theorem applied to the concrete well-formed
lists `[2h meeting]` and `[2h meeting, 3h block]`. -/
theorem density_monotone_witness :
    totalScheduledMinutes [makeEvent "1" "Meeting" (hm 9 0) (hm 11 0)] ≤
      totalScheduledMinutes
        [makeEvent "1" "Meeting" (hm 9 0) (hm 11 0),
         makeEvent "2" "Block" (hm 13 0) (hm 16 0)] ∧
    densityScore (calculateDensity
      [makeEvent "1" "Meeting" (hm 9 0) (hm 11 0)]) ≤
      densityScore (calculateDensity
        [makeEvent "1" "Meeting" (hm 9 0) (hm 11 0),
         makeEvent "2" "Block" (hm 13 0) (hm 16 0)]) :=
  density_monotone _ _
    ((List.Sublist.cons₂ _ (List.nil_sublist _)).subperm)
    (by with_unfolding_all decide)

-- ---------------------------------------------------------------------------
-- C8: degradation of events with missing/unparsable markers
-- ---------------------------------------------------------------------------

/-- A marker that `getEventStart`/`getEventEnd` cannot parse: falsy
(`null`/`undefined`/`""`) or present but unparsable. -/
def markerCorrupt (m : Option EventMarker) : Prop :=
  markerRaw m = RawTime.absent ∨ markerRaw m = RawTime.invalid

instance (m : Option EventMarker) : Decidable (markerCorrupt m) := by
  unfold markerCorrupt
  infer_instance

/-- C8 counterexample: an event with a missing start marker but a valid end
instant (09:00 on 2025-06-09 UTC) does not degrade to a zero-duration event:
its start degrades to the epoch while its end stands, so it alone contributes
about 29 million minutes and flips an otherwise empty day's density to
overloaded, contradicting "contributing zero hours ... unaffected by the
corrupt record". -/
theorem corruptEvent_counterexample :
    getEventDurationMinutes
      { id := some "1", summary := some "Broken",
        start := none,
        «end» := some { dateTime := .valid 1749459600000 } } ≠ 0 ∧
    calculateDensity
      [{ id := some "1", summary := some "Broken",
         start := none,
         «end» := some { dateTime := .valid 1749459600000 } }] =
      .overloaded := by
  constructor
  · with_unfolding_all decide
  · with_unfolding_all rfl

theorem orderedPairs_append_filter (P : CalendarEvent × CalendarEvent → Bool)
    (c : CalendarEvent) :
    ∀ l : List CalendarEvent, (∀ a ∈ l, P (a, c) = false) →
      (orderedPairs (l ++ [c])).filter P = (orderedPairs l).filter P := by
  intro l
  induction l with
  | nil =>
    intro _
    rfl
  | cons x xs ih =>
    intro h
    have hx : P (x, c) = false := h x (List.mem_cons_self x xs)
    simp only [List.cons_append, orderedPairs, List.filter_append,
      List.map_append, List.append_eq]
    rw [ih (fun a ha => h a (List.mem_cons_of_mem x ha))]
    simp [hx]

/-- C8 (amended): `analyzeDay` is a total function (the embedding needs no
error case, mirroring that the source never throws); each missing or
unparsable marker individually degrades to the epoch instant, so an event
with BOTH markers corrupt has zero duration anchored at the epoch,
contributes zero scheduled hours (density unchanged), is discarded from
free-slot discovery, and triggers no overlap or energy-mismatch conflict —
though, unlike what the original claim says, an event with only one corrupt
marker spans from/to the epoch and can change the analysis, and even a fully
corrupt event still counts toward the overcommitment event count. -/
theorem corruptEvent_degrades (events : List CalendarEvent)
    (prefs : UserPreferences) (c : CalendarEvent)
    (dayMidnight : Int) (dayName : String) (minDuration : ℚ)
    (filterEnergy : Option EnergyLevel)
    (hs : markerCorrupt c.start) (he : markerCorrupt c.«end»)
    (hpos : ∀ e ∈ events, 0 ≤ getEventStart e) (hdm : 0 ≤ dayMidnight) :
    getEventStart c = 0 ∧ getEventEnd c = 0 ∧
    getEventDurationMinutes c = 0 ∧
    calculateDensity (events ++ [c]) = calculateDensity events ∧
    findFreeSlots (events ++ [c]) prefs dayMidnight dayName minDuration
        filterEnergy =
      findFreeSlots events prefs dayMidnight dayName minDuration filterEnergy ∧
    detectOverlaps (events ++ [c]) = detectOverlaps events ∧
    detectEnergyMismatches (events ++ [c]) prefs =
      detectEnergyMismatches events prefs := by
  have hstart : getEventStart c = 0 := by
    unfold getEventStart
    rcases hs with h | h <;> rw [h]
  have hend : getEventEnd c = 0 := by
    unfold getEventEnd
    rcases he with h | h <;> rw [h]
  have hdur : getEventDurationMinutes c = 0 := by
    unfold getEventDurationMinutes
    rw [hstart, hend]
    norm_num
  have htot : totalScheduledMinutes (events ++ [c]) =
      totalScheduledMinutes events := by
    rw [totalScheduledMinutes_eq_sum, totalScheduledMinutes_eq_sum,
      List.map_append]
    simp [hdur]
  refine ⟨hstart, hend, hdur, ?_, ?_, ?_, ?_⟩
  · unfold calculateDensity
    rw [htot]
  · unfold findFreeSlots
    have hno : ¬ (getEventEnd c > dayMidnight + DAY_START_HOUR * 3600000 ∧
        getEventStart c < dayMidnight + DAY_END_HOUR * 3600000) := by
      rw [hend]
      unfold DAY_START_HOUR
      intro hcontra
      have := hcontra.1
      omega
    have hbusy : busyIntervals (events ++ [c]) prefs dayMidnight dayName =
        busyIntervals events prefs dayMidnight dayName := by
      unfold busyIntervals
      dsimp only
      rw [List.filterMap_append]
      simp [hno]
    rw [hbusy]
  · rw [detectOverlaps_eq_pairs, detectOverlaps_eq_pairs]
    rw [orderedPairs_append_filter _ c events]
    intro a ha
    have h1 : ¬ getEventStart a < getEventEnd c := by
      rw [hend]
      exact not_lt.mpr (hpos a ha)
    simp [overlapB, h1]
  · have hlt : getEventDurationMinutes c < 60 := by
      rw [hdur]
      norm_num
    unfold detectEnergyMismatches
    rw [List.flatMap_append]
    simp [hlt]

/-- C8 witness: the amended theorem applied to one well-formed meeting plus
an event whose start and end markers are both null. -/
theorem corruptEvent_degrades_witness :
    getEventDurationMinutes { id := some "2", summary := some "Broken" } = 0 ∧
    calculateDensity
        ([makeEvent "1" "Meeting" (hm 9 0) (hm 10 0)] ++
          [{ id := some "2", summary := some "Broken" }]) =
      calculateDensity [makeEvent "1" "Meeting" (hm 9 0) (hm 10 0)] ∧
    findFreeSlots
        ([makeEvent "1" "Meeting" (hm 9 0) (hm 10 0)] ++
          [{ id := some "2", summary := some "Broken" }]) basePrefs 0 "monday"
        30 none =
      findFreeSlots [makeEvent "1" "Meeting" (hm 9 0) (hm 10 0)] basePrefs 0
        "monday" 30 none := by
  have h := corruptEvent_degrades
    [makeEvent "1" "Meeting" (hm 9 0) (hm 10 0)] basePrefs
    { id := some "2", summary := some "Broken" } 0 "monday" 30 none
    (Or.inl rfl) (Or.inl rfl)
    (by
      intro e hemem
      rw [List.mem_singleton] at hemem
      subst hemem
      with_unfolding_all decide)
    le_rfl
  exact ⟨h.2.2.1, h.2.2.2.1, h.2.2.2.2.1⟩

-- ---------------------------------------------------------------------------
-- Order theory of the JS string comparison
-- ---------------------------------------------------------------------------

theorem ltChars_irrefl : ∀ l : List Char, ltChars l l = false := by
  intro l
  induction l with
  | nil => rfl
  | cons c cs ih => simp [ltChars, ih]

theorem charEq_of_toNat_eq {c d : Char} (h : c.toNat = d.toNat) : c = d := by
  have h1 := Char.ofNat_toNat c
  have h2 := Char.ofNat_toNat d
  rw [← h1, ← h2, h]

theorem ltChars_false_iff : ∀ a b : List Char,
    ltChars a b = false ↔ (ltChars b a = true ∨ a = b) := by
  intro a
  induction a with
  | nil =>
    intro b
    cases b with
    | nil => simp [ltChars]
    | cons d ds => simp [ltChars]
  | cons c cs ih =>
    intro b
    cases b with
    | nil => simp [ltChars]
    | cons d ds =>
      by_cases h1 : c.toNat < d.toNat
      · have h2 : ¬ d.toNat < c.toNat := by omega
        have hne : c ≠ d := fun hcd => by simp [hcd] at h1
        simp [ltChars, h1, h2, hne]
      · by_cases h2 : d.toNat < c.toNat
        · have hne : ¬ (c :: cs = d :: ds) := by
            intro hcd
            cases hcd
            omega
          simp [ltChars, h1, h2, hne]
        · have hcd : c = d := charEq_of_toNat_eq (by omega)
          subst hcd
          simp [ltChars, h1, h2, ih ds]

theorem ltChars_asymm {a b : List Char} (h : ltChars a b = true) :
    ltChars b a = false :=
  (ltChars_false_iff b a).mpr (Or.inl h)

theorem jsStrLt_irrefl (s : String) : jsStrLt s s = false :=
  ltChars_irrefl s.data

theorem strLe_total (a b : String) : (!jsStrLt b a) || (!jsStrLt a b) := by
  cases hba : jsStrLt b a with
  | false => simp
  | true =>
    have h' : ltChars b.data a.data = true := hba
    have hab : jsStrLt a b = false := ltChars_asymm h'
    simp [hab]

theorem ltChars_trans : ∀ x y z : List Char,
    ltChars x y = true → ltChars y z = true → ltChars x z = true := by
  intro x
  induction x with
  | nil =>
    intro y z h1 h2
    cases z with
    | nil =>
      cases y with
      | nil => simp [ltChars] at h1
      | cons d ds => simp [ltChars] at h2
    | cons e es => simp [ltChars]
  | cons cx xs ih =>
    intro y z h1 h2
    cases y with
    | nil => simp [ltChars] at h1
    | cons d ds =>
      cases z with
      | nil => simp [ltChars] at h2
      | cons e es =>
        simp only [ltChars] at h1 h2 ⊢
        by_cases hxd : cx.toNat < d.toNat
        · by_cases hde : d.toNat < e.toNat
          · have : cx.toNat < e.toNat := by omega
            simp [this]
          · by_cases hed : e.toNat < d.toNat
            · simp [hde, hed] at h2
            · have : cx.toNat < e.toNat := by omega
              simp [this]
        · by_cases hdx : d.toNat < cx.toNat
          · simp [hxd, hdx] at h1
          · by_cases hde : d.toNat < e.toNat
            · have : cx.toNat < e.toNat := by omega
              simp [this]
            · by_cases hed : e.toNat < d.toNat
              · simp [hde, hed] at h2
              · have h3 : ¬ cx.toNat < e.toNat := by omega
                have h5 : ¬ e.toNat < cx.toNat := by omega
                simp only [h3, if_false, h5]
                simp only [hxd, if_false, hdx] at h1
                simp only [hde, if_false, hed] at h2
                exact ih ds es h1 h2

theorem strLe_trans (a b c : String)
    (hab : (!jsStrLt b a) = true) (hbc : (!jsStrLt c b) = true) :
    (!jsStrLt c a) = true := by
  simp only [Bool.not_eq_true'] at hab hbc ⊢
  rcases (ltChars_false_iff b.data a.data).mp hab with h1 | h1
  · rcases (ltChars_false_iff c.data b.data).mp hbc with h2 | h2
    · exact ltChars_asymm (ltChars_trans a.data b.data c.data h1 h2)
    · show ltChars c.data a.data = false
      rw [h2]
      exact ltChars_asymm h1
  · rcases (ltChars_false_iff c.data b.data).mp hbc with h2 | h2
    · show ltChars c.data a.data = false
      rw [← h1]
      exact ltChars_asymm h2
    · show ltChars c.data a.data = false
      rw [h2, h1]
      exact ltChars_irrefl a.data

-- ---------------------------------------------------------------------------
-- The most-recent-prior-date selection
-- ---------------------------------------------------------------------------

theorem sorted_rev_head_max (le : α → α → Bool) :
    ∀ l : List α, l.Pairwise (fun a b => le a b = true) →
      ∀ d, l.reverse.head? = some d → ∀ x ∈ l, x = d ∨ le x d = true := by
  intro l
  induction l with
  | nil =>
    intro _ d hd
    simp at hd
  | cons a as ih =>
    intro hp d hd x hx
    rcases hp with _ | ⟨ha, has⟩
    cases hrev : as.reverse with
    | nil =>
      have hasnil : as = [] := by
        have := congrArg List.reverse hrev
        simpa using this
      subst hasnil
      simp at hd
      subst hd
      rcases List.mem_singleton.mp hx with rfl
      exact Or.inl rfl
    | cons c rest =>
      have hd' : as.reverse.head? = some d := by
        rw [List.reverse_cons, hrev] at hd
        rw [hrev]
        simpa using hd
      have hdmem : d ∈ as := by
        have : d ∈ as.reverse := by
          rw [hrev]
          have := List.head?_eq_head (l := c :: rest)
          rw [hrev] at hd'
          simp at hd'
          simp [hd']
        exact List.mem_reverse.mp this
      rcases List.mem_cons.mp hx with rfl | hxas
      · exact Or.inr (ha d hdmem)
      · exact ih has d hd' x hxas

theorem mostRecentDate_spec (st : Store) (target d : String)
    (h : mostRecentDate st target = some d) :
    d ∈ st.checklists.map (fun p => p.1) ∧ jsStrLt d target = true ∧
    ∀ k ∈ st.checklists.map (fun p => p.1), jsStrLt k target = true →
      jsStrLt d k = false := by
  unfold mostRecentDate at h
  have hperm := jsSortBy_perm (fun a b : String => !jsStrLt b a)
    ((st.checklists.map (fun p => p.1)).filter (fun x => jsStrLt x target))
  have hpair := jsSortBy_pairwise (fun a b : String => !jsStrLt b a)
    (fun a b => strLe_total a b)
    (fun a b c h1 h2 => strLe_trans a b c h1 h2)
    ((st.checklists.map (fun p => p.1)).filter (fun x => jsStrLt x target))
  have hmax := sorted_rev_head_max (fun a b : String => !jsStrLt b a) _ hpair d h
  have hdmem : d ∈ (st.checklists.map (fun p => p.1)).filter
      (fun x => jsStrLt x target) := by
    have hdrev : d ∈ (jsSortBy (fun a b : String => !jsStrLt b a)
        ((st.checklists.map (fun p => p.1)).filter
          (fun x => jsStrLt x target))).reverse := by
      cases hrv : (jsSortBy (fun a b : String => !jsStrLt b a)
          ((st.checklists.map (fun p => p.1)).filter
            (fun x => jsStrLt x target))).reverse with
      | nil => rw [hrv] at h; simp at h
      | cons c rest =>
        rw [hrv] at h
        simp at h
        simp [hrv, h]
    have := List.mem_reverse.mp hdrev
    exact (hperm.mem_iff).mp this
  have hdks := List.mem_filter.mp hdmem
  refine ⟨hdks.1, hdks.2, ?_⟩
  intro k hk hklt
  have hkfl : k ∈ (st.checklists.map (fun p => p.1)).filter
      (fun x => jsStrLt x target) := List.mem_filter.mpr ⟨hk, hklt⟩
  have hksorted : k ∈ jsSortBy (fun a b : String => !jsStrLt b a)
      ((st.checklists.map (fun p => p.1)).filter (fun x => jsStrLt x target)) :=
    (hperm.mem_iff).mpr hkfl
  rcases hmax k hksorted with rfl | hle
  · exact jsStrLt_irrefl _
  · simpa using hle

-- ---------------------------------------------------------------------------
-- Persistence and sorting lemmas for the checklist component
-- ---------------------------------------------------------------------------

theorem find_map_replace (d : String) (cl : DailyChecklist) :
    ∀ l : List (String × DailyChecklist), l.any (fun p => p.1 == d) = true →
      ((l.map (fun p => if p.1 == d then (p.1, cl) else p)).find?
        (fun p => p.1 == d)).map (fun p => p.2) = some cl := by
  intro l
  induction l with
  | nil => intro h; simp at h
  | cons p rest ih =>
    intro h
    by_cases hp : p.1 == d
    · rw [List.map_cons, if_pos hp, List.find?_cons_of_pos _ (by exact hp)]
      rfl
    · rw [List.map_cons, if_neg (by simpa using hp),
        List.find?_cons_of_neg _ (by simpa using hp)]
      apply ih
      simpa [hp] using h

theorem find_append_new (d : String) (cl : DailyChecklist) :
    ∀ l : List (String × DailyChecklist), l.any (fun p => p.1 == d) = false →
      (((l ++ [(d, cl)]).find? (fun p => p.1 == d)).map (fun p => p.2)) =
        some cl := by
  intro l
  induction l with
  | nil => simp [List.find?_cons]
  | cons p rest ih =>
    intro h
    simp only [List.any_cons, Bool.or_eq_false_iff] at h
    rw [List.cons_append, List.find?_cons_of_neg _ (by simp [h.1])]
    exact ih h.2

theorem loadChecklist_save (st : Store) (cl : DailyChecklist) :
    loadChecklist (saveChecklist st cl) cl.date = some cl := by
  unfold loadChecklist saveChecklist
  by_cases h : st.checklists.any (fun p => p.1 == cl.date)
  · simp only [h, if_true]
    exact find_map_replace cl.date cl st.checklists h
  · simp only [h, if_false]
    exact find_append_new cl.date cl st.checklists (Bool.eq_false_iff.mpr h)

theorem sortItems_perm (items : List ChecklistItem)
    (priority : Option (List (String × Int))) :
    List.Perm (sortItems items priority) items := by
  unfold sortItems
  have h1 := jsSortBy_perm (incompleteLe priority)
    (items.filter (fun i => !i.completed))
  have h2 := jsSortBy_perm completedLe (items.filter (fun i => i.completed))
  refine (List.Perm.append h1 h2).trans ?_
  have := List.filter_append_perm (fun i => !i.completed) items
  have heq : items.filter (fun i => !!i.completed) =
      items.filter (fun i => i.completed) := by
    apply List.filter_congr
    intro x _
    simp
  rw [heq] at this
  exact this

-- ---------------------------------------------------------------------------
-- C9: carry-over builds the new checklist from the prior incomplete items
-- ---------------------------------------------------------------------------

theorem carryLoop_eq (gen : Nat → String) (d : String) :
    ∀ (items : List ChecklistItem) (ctr : Nat),
      carryLoop gen ctr d items =
        (((items.filter (fun i => !i.completed)).enumFrom ctr).map (fun p =>
          { p.2 with
            id := gen p.1,
            carriedFrom := some (jsOrStr p.2.carriedFrom d) }),
         ctr + (items.filter (fun i => !i.completed)).length) := by
  intro items
  induction items with
  | nil => intro ctr; simp [carryLoop]
  | cons item rest ih =>
    intro ctr
    by_cases hc : item.completed
    · simp only [carryLoop, hc, if_true, List.filter_cons, Bool.not_true,
        Bool.false_eq_true, if_false]
      exact ih ctr
    · have hcf : item.completed = false := Bool.eq_false_iff.mpr hc
      simp only [carryLoop, hcf, Bool.false_eq_true, if_false,
        List.filter_cons, Bool.not_false, if_true]
      rw [ih (ctr + 1)]
      simp only [List.enumFrom_cons, List.map_cons, List.length_cons,
        Prod.mk.injEq]
      constructor
      · simp [hcf]
      · omega

theorem carriedSpec_eq_carryLoop (gen : Nat → String) (ctr : Nat)
    (prior : DailyChecklist) :
    (carryLoop gen ctr prior.date prior.items).1 = carriedSpec gen ctr prior := by
  rw [carryLoop_eq]
  rfl

/-- C9 (amended): when `getChecklist` builds a new checklist for a target
date with no stored data, its items are exactly (up to the sort) the
incomplete items of the most recent prior checklist (strictly earlier date,
lexical comparison), each copied with a newly generated identifier and with
`carriedFrom` set to the source checklist's date unless the source item
already carries a NON-EMPTY `carriedFrom` value, which is then preserved
unchanged (a JS-falsy empty-string lineage is replaced, unlike what the
original claim says); completed items are not copied, and the new checklist
is persisted immediately, even if empty. -/
theorem getChecklist_carryOver (gen : Nat → String) (ctr : Nat) (st : Store)
    (target today : String) (prior : DailyChecklist)
    (hne : (target == "") = false)
    (hnone : loadChecklist st target = none)
    (hprior : findMostRecentChecklist st target = some prior) :
    (getChecklist gen ctr st (some target) today).1.date = target ∧
    List.Perm (getChecklist gen ctr st (some target) today).1.items
      (carriedSpec gen ctr prior) ∧
    loadChecklist (getChecklist gen ctr st (some target) today).2.1 target =
      some (getChecklist gen ctr st (some target) today).1 ∧
    (∃ d, mostRecentDate st target = some d ∧ jsStrLt d target = true ∧
      ∀ k ∈ st.checklists.map (fun p => p.1), jsStrLt k target = true →
        jsStrLt d k = false) := by
  have htd : jsOrStr (some target) today = target := by
    show (if (target == "") = true then today else target) = target
    rw [hne]
    rfl
  have hcl := carryLoop_eq gen prior.date prior.items ctr
  have hred : getChecklist gen ctr st (some target) today =
      ({ date := target,
         items := sortItems (carriedSpec gen ctr prior)
           (some (getAreaPriority st)) },
       saveChecklist st
         { date := target,
           items := sortItems (carriedSpec gen ctr prior)
             (some (getAreaPriority st)) },
       ctr + (prior.items.filter (fun i => !i.completed)).length) := by
    unfold getChecklist
    dsimp only
    rw [htd, hnone]
    dsimp only
    rw [hprior]
    dsimp only
    rw [hcl]
    rfl
  rw [hred]
  refine ⟨rfl, ?_, ?_, ?_⟩
  · exact sortItems_perm _ _
  · exact loadChecklist_save st _
  · obtain ⟨d, hd, _⟩ := Option.bind_eq_some.mp hprior
    obtain ⟨h1, h2, h3⟩ := mostRecentDate_spec st target d hd
    exact ⟨d, hd, h2, h3⟩

/-- C9 counterexample: a source item whose `carriedFrom` is the empty string
(a value of the optional string field) is not preserved: the carry stamps the
source checklist's date over it, because the source computes
`item.carriedFrom || prior.date` and the empty string is JS-falsy. -/
theorem carryOver_emptyLineage_counterexample :
    (({ checklists := [("2025-06-09",
          { date := "2025-06-09", items :=
            [{ id := "old-1", area := "work", text := "t", completed := false,
               carriedFrom := some "" }] })],
        prefs := none } : Store).checklists.head?.map
          (fun p => p.2.items.map (fun i => i.carriedFrom)) = some [some ""]) ∧
    ((getChecklist (fun n => "id-" ++ toString n) 0
        { checklists := [("2025-06-09",
            { date := "2025-06-09", items :=
              [{ id := "old-1", area := "work", text := "t", completed := false,
                 carriedFrom := some "" }] })],
          prefs := none } (some "2025-06-10") "2025-06-10").1.items.map
        (fun i => i.carriedFrom) = [some "2025-06-09"]) ∧
    some "" ≠ some "2025-06-09" := by
  refine ⟨rfl, by with_unfolding_all rfl, by decide⟩

/-- Fixture store for the checklist witnesses: one checklist on 2025-06-07
holding a single incomplete item with no lineage. -/
def st9w : Store :=
  { checklists := [("2025-06-07",
      { date := "2025-06-07", items :=
        [{ id := "a1", area := "work", text := "Task", completed := false }] })],
    prefs := none }

/-- Deterministic id generator standing for `randomUUID`. -/
def gen9 : Nat → String := fun n => "uuid-" ++ toString n

/-- C9 witness: the amended theorem applied to a concrete store, plus the
three-day carry chain computed concretely — the item carried on 2025-06-08
and again on 2025-06-09 still points at 2025-06-07. -/
theorem getChecklist_carryOver_witness :
    List.Perm (getChecklist gen9 0 st9w (some "2025-06-08") "2025-06-08").1.items
      (carriedSpec gen9 0
        { date := "2025-06-07", items :=
          [{ id := "a1", area := "work", text := "Task", completed := false }] }) ∧
    ((getChecklist gen9
        (getChecklist gen9 0 st9w (some "2025-06-08") "2025-06-08").2.2
        (getChecklist gen9 0 st9w (some "2025-06-08") "2025-06-08").2.1
        (some "2025-06-09") "2025-06-09").1.items.map
        (fun i => i.carriedFrom) = [some "2025-06-07"]) := by
  constructor
  · exact (getChecklist_carryOver gen9 0 st9w "2025-06-08" "2025-06-08"
      { date := "2025-06-07", items :=
        [{ id := "a1", area := "work", text := "Task", completed := false }] }
      (by decide) (by with_unfolding_all rfl) (by with_unfolding_all rfl)).2.1
  · with_unfolding_all rfl

-- ---------------------------------------------------------------------------
-- C10: mutations resolve ids against today's checklist only
-- ---------------------------------------------------------------------------

theorem findIdx_none_of_all_false (p : ChecklistItem → Bool) :
    ∀ (l : List ChecklistItem) (i : Nat), (∀ x ∈ l, p x = false) →
      l.findIdx? p i = none := by
  intro l
  induction l with
  | nil => intro _ _; rfl
  | cons x xs ih =>
    intro i h
    rw [List.findIdx?_cons]
    rw [h x (List.mem_cons_self x xs)]
    simp only [Bool.false_eq_true, if_false]
    exact ih (i + 1) (fun y hy => h y (List.mem_cons_of_mem x hy))

/-- C10: `updateItem` and `removeItem` resolve the identifier against
today's checklist only (obtained via `getChecklist` with no date, which may
first create today's checklist by carry-over and persist it); for an
identifier not among today's items — including one existing only on a prior
date's checklist — both throw `Checklist item not found: <id>` and leave the
store exactly as the `getChecklist` step left it (the failed mutation itself
modifies nothing). -/
theorem itemNotFound_behavior (gen : Nat → String) (ctr : Nat) (st : Store)
    (today now id : String) (updates : ItemUpdates)
    (hnot : id ∉ (getChecklist gen ctr st none today).1.items.map
      (fun i => i.id)) :
    updateItem gen ctr st today now id updates =
      (.error ("Checklist item not found: " ++ id),
       (getChecklist gen ctr st none today).2.1,
       (getChecklist gen ctr st none today).2.2) ∧
    removeItem gen ctr st today id =
      (.error ("Checklist item not found: " ++ id),
       (getChecklist gen ctr st none today).2.1,
       (getChecklist gen ctr st none today).2.2) := by
  have hall : ∀ x ∈ (getChecklist gen ctr st none today).1.items,
      (x.id == id) = false := by
    intro x hx
    by_cases hxi : x.id = id
    · exact absurd (List.mem_map.mpr ⟨x, hx, hxi⟩) hnot
    · simpa using hxi
  rcases hG : getChecklist gen ctr st none today with ⟨checklist, st1, ctr1⟩
  rw [hG] at hall
  have hfind : checklist.items.find? (fun i => i.id == id) = none :=
    List.find?_eq_none.mpr (fun x hx => by simp [hall x hx])
  have hfidx : checklist.items.findIdx? (fun i => i.id == id) = none :=
    findIdx_none_of_all_false _ _ 0 hall
  constructor
  · unfold updateItem
    rw [hG]
    simp only [hfind]
  · unfold removeItem
    rw [hG]
    simp only [hfidx]

/-- C10 witness: the theorem applied to a concrete store in which the
identifier `a1` exists only on yesterday's checklist — today's freshly
carried copy has a new id, so both mutations fail with the exact message and
leave the store as `getChecklist` created it. -/
theorem itemNotFound_behavior_witness :
    updateItem gen9 0 st9w "2025-06-08" "2025-06-08T10:00:00Z" "a1"
        { completed := some true } =
      (.error "Checklist item not found: a1",
       (getChecklist gen9 0 st9w none "2025-06-08").2.1,
       (getChecklist gen9 0 st9w none "2025-06-08").2.2) ∧
    removeItem gen9 0 st9w "2025-06-08" "a1" =
      (.error "Checklist item not found: a1",
       (getChecklist gen9 0 st9w none "2025-06-08").2.1,
       (getChecklist gen9 0 st9w none "2025-06-08").2.2) :=
  itemNotFound_behavior gen9 0 st9w "2025-06-08" "2025-06-08T10:00:00Z" "a1"
    { completed := some true } (by with_unfolding_all decide)

-- ---------------------------------------------------------------------------
-- C4: free-slot / busy-time conservation
-- ---------------------------------------------------------------------------

theorem mergeGo_mem_props (D : Int) :
    ∀ (l : List Ivl) (s e : Int), s ≤ e → e ≤ D →
      (∀ q ∈ l, s ≤ q.start ∧ q.start ≤ q.«end» ∧ q.«end» ≤ D) →
      l.Pairwise (fun a b => a.start ≤ b.start) →
      ∀ p ∈ mergeGo s e l, s ≤ p.start ∧ p.start ≤ p.«end» ∧ p.«end» ≤ D := by
  intro l
  induction l with
  | nil =>
    intro s e hse heD _ _ p hp
    rw [mergeGo] at hp
    rcases List.mem_singleton.mp hp with rfl
    exact ⟨le_refl _, hse, heD⟩
  | cons q rest ih =>
    intro s e hse heD hq hpair p hp
    rcases hpair with _ | ⟨hqs, hpair'⟩
    obtain ⟨hsq, hqwf, hqD⟩ := hq q (List.mem_cons_self q rest)
    rw [mergeGo] at hp
    split at hp
    · rcases List.mem_cons.mp hp with rfl | hp'
      · exact ⟨le_refl _, hse, heD⟩
      · have := ih q.start q.«end» hqwf hqD
          (fun r hr => ⟨hqs r hr, (hq r (List.mem_cons_of_mem q hr)).2⟩)
          hpair' p hp'
        exact ⟨le_trans hsq this.1, this.2⟩
    · exact ih s (max e q.«end») (le_trans hse (le_max_left _ _))
        (max_le heD hqD)
        (fun r hr => ⟨(hq r (List.mem_cons_of_mem q hr)).1,
          (hq r (List.mem_cons_of_mem q hr)).2⟩)
        hpair' p hp

theorem mergeGo_sep (D : Int) :
    ∀ (l : List Ivl) (s e : Int), s ≤ e → e ≤ D →
      (∀ q ∈ l, s ≤ q.start ∧ q.start ≤ q.«end» ∧ q.«end» ≤ D) →
      l.Pairwise (fun a b => a.start ≤ b.start) →
      (mergeGo s e l).Pairwise (fun p q => p.«end» < q.start) := by
  intro l
  induction l with
  | nil =>
    intro s e _ _ _ _
    rw [mergeGo]
    exact List.pairwise_singleton _ _
  | cons q rest ih =>
    intro s e hse heD hq hpair
    rcases hpair with _ | ⟨hqs, hpair'⟩
    obtain ⟨hsq, hqwf, hqD⟩ := hq q (List.mem_cons_self q rest)
    rw [mergeGo]
    split
    · rename_i hgt
      refine List.Pairwise.cons ?_ ?_
      · intro p hp
        have := mergeGo_mem_props D rest q.start q.«end» hqwf hqD
          (fun r hr => ⟨hqs r hr, (hq r (List.mem_cons_of_mem q hr)).2⟩)
          hpair' p hp
        exact lt_of_lt_of_le hgt this.1
      · exact ih q.start q.«end» hqwf hqD
          (fun r hr => ⟨hqs r hr, (hq r (List.mem_cons_of_mem q hr)).2⟩)
          hpair'
    · exact ih s (max e q.«end») (le_trans hse (le_max_left _ _))
        (max_le heD hqD)
        (fun r hr => ⟨(hq r (List.mem_cons_of_mem q hr)).1,
          (hq r (List.mem_cons_of_mem q hr)).2⟩)
        hpair'

theorem busyIntervals_wf (events : List CalendarEvent)
    (prefs : UserPreferences) (dayMidnight : Int) (dayName : String)
    (hev : ∀ ev ∈ events, getEventStart ev ≤ getEventEnd ev)
    (hbl : ∀ b ∈ prefs.schedulingRules.protectedBlocks, b.day = dayName →
      b.start ≤ b.«end» ∧ b.«end» ≤ DAY_END_HOUR * 60) :
    ∀ p ∈ busyIntervals events prefs dayMidnight dayName,
      p.start ≤ p.«end» ∧ p.«end» ≤ dayMidnight + DAY_END_HOUR * 3600000 := by
  intro p hp
  unfold busyIntervals at hp
  have hp' := (jsSortBy_perm _ _).mem_iff.mp hp
  rcases List.mem_append.mp hp' with hpe | hpb
  · obtain ⟨ev, hev', hmk⟩ := List.mem_filterMap.mp hpe
    dsimp only at hmk
    split at hmk
    · rename_i hcond
      rcases Option.some.inj hmk with rfl
      have hwf := hev ev hev'
      unfold DAY_START_HOUR DAY_END_HOUR at *
      constructor
      · dsimp only
        split <;> split <;> omega
      · dsimp only
        split <;> omega
    · cases hmk
  · obtain ⟨b, hb', hmk⟩ := List.mem_filterMap.mp hpb
    split at hmk
    · rename_i hcond
      rcases Option.some.inj hmk with rfl
      have hwf := hbl b hb' (by simpa using hcond)
      unfold DAY_END_HOUR at *
      refine ⟨?_, ?_⟩
      · show dayMidnight + b.start * 60000 ≤ dayMidnight + b.«end» * 60000
        omega
      · show dayMidnight + b.«end» * 60000 ≤ dayMidnight + 21 * 3600000
        omega
    · cases hmk

theorem busyIntervals_sorted (events : List CalendarEvent)
    (prefs : UserPreferences) (dayMidnight : Int) (dayName : String) :
    (busyIntervals events prefs dayMidnight dayName).Pairwise
      (fun a b => a.start ≤ b.start) := by
  unfold busyIntervals
  dsimp only
  refine (jsSortBy_pairwise (fun a b : Ivl => decide (a.start ≤ b.start))
    (fun a b => by
      rcases le_total a.start b.start with h | h <;> simp [h])
    (fun a b c h1 h2 => by
      simp only [decide_eq_true_eq] at h1 h2 ⊢
      exact le_trans h1 h2)
    _).imp ?_
  intro a b h
  simpa using h

theorem slotMinutes_append (a b : List TimeSlot) :
    slotMinutes (a ++ b) = slotMinutes a + slotMinutes b := by
  simp [slotMinutes]

theorem freeWalk_conservation (prefs : UserPreferences) (dayMidnight : Int) :
    ∀ (merged : List Ivl) (cursor : Int),
      cursor ≤ dayMidnight + DAY_END_HOUR * 3600000 →
      merged.Pairwise (fun p q => p.«end» < q.start) →
      (∀ p ∈ merged, p.start ≤ p.«end» ∧
        p.«end» ≤ dayMidnight + DAY_END_HOUR * 3600000) →
      slotMinutes (freeWalk prefs dayMidnight
          (dayMidnight + DAY_END_HOUR * 3600000) 0 none cursor merged) +
        (merged.map (fun p =>
          ((max 0 (min p.«end» (dayMidnight + DAY_END_HOUR * 3600000) -
            max p.start cursor) : Int) : ℚ) / 60000)).sum =
      ((dayMidnight + DAY_END_HOUR * 3600000 - cursor : Int) : ℚ) / 60000 := by
  intro merged
  induction merged with
  | nil =>
    intro cursor hc _ _
    simp only [freeWalk, List.map_nil, List.sum_nil, add_zero]
    by_cases hlt : cursor < dayMidnight + DAY_END_HOUR * 3600000
    · rw [if_pos hlt]
      have hdpos : (0:ℚ) ≤
          ((dayMidnight + DAY_END_HOUR * 3600000 - cursor : Int) : ℚ) / 60000 := by
        apply div_nonneg _ (by norm_num)
        have h0 : (0:Int) ≤ dayMidnight + DAY_END_HOUR * 3600000 - cursor := by
          omega
        exact_mod_cast h0
      rw [if_pos hdpos, if_pos (Or.inl trivial)]
      simp [slotMinutes]
    · rw [if_neg hlt]
      have hceq : cursor = dayMidnight + DAY_END_HOUR * 3600000 :=
        le_antisymm hc (not_lt.mp hlt)
      simp [slotMinutes, hceq]
  | cons p rest ih =>
    intro cursor hc hpair hwf
    rcases hpair with _ | ⟨hsep, hpair'⟩
    obtain ⟨hpwf, hpD⟩ := hwf p (List.mem_cons_self p rest)
    have hwfrest := fun q hq => hwf q (List.mem_cons_of_mem p hq)
    simp only [freeWalk, List.map_cons, List.sum_cons]
    rw [slotMinutes_append]
    by_cases hps : p.start > cursor
    · have hcur : cursor < p.«end» := lt_of_lt_of_le hps hpwf
      have hcmax : max cursor p.«end» = p.«end» := max_eq_right (le_of_lt hcur)
      have hdpos : (0:ℚ) ≤ ((p.start - cursor : Int) : ℚ) / 60000 := by
        apply div_nonneg _ (by norm_num)
        have h0 : (0:Int) ≤ p.start - cursor := by omega
        exact_mod_cast h0
      rw [if_pos hps, if_pos hdpos, if_pos (Or.inl trivial)]
      have hclip : ((max 0 (min p.«end» (dayMidnight + DAY_END_HOUR * 3600000) -
          max p.start cursor) : Int) : ℚ) / 60000 =
          ((p.«end» - p.start : Int) : ℚ) / 60000 := by
        rw [min_eq_left hpD, max_eq_left (le_of_lt hps),
          max_eq_right (by omega : (0:Int) ≤ p.«end» - p.start)]
      have hmapeq : rest.map (fun q =>
          ((max 0 (min q.«end» (dayMidnight + DAY_END_HOUR * 3600000) -
            max q.start cursor) : Int) : ℚ) / 60000) =
          rest.map (fun q =>
          ((max 0 (min q.«end» (dayMidnight + DAY_END_HOUR * 3600000) -
            max q.start p.«end») : Int) : ℚ) / 60000) := by
        apply List.map_congr_left
        intro q hq
        have hq1 := hsep q hq
        rw [max_eq_left (le_of_lt hq1),
          max_eq_left (le_of_lt (by omega : cursor < q.start))]
      rw [hclip, hcmax, hmapeq]
      have hih := ih p.«end» hpD hpair' hwfrest
      simp only [slotMinutes, List.map_cons, List.map_nil, List.sum_cons,
        List.sum_nil] at hih ⊢
      push_cast at hih ⊢
      linear_combination hih
    · rw [if_neg hps]
      have hpsc : p.start ≤ cursor := not_lt.mp hps
      by_cases hpe : p.«end» < cursor
      · have hcmax : max cursor p.«end» = cursor := max_eq_left (le_of_lt hpe)
        have hclip0 : ((max 0 (min p.«end» (dayMidnight + DAY_END_HOUR * 3600000)
            - max p.start cursor) : Int) : ℚ) / 60000 = 0 := by
          rw [min_eq_left hpD, max_eq_right hpsc,
            max_eq_left (by omega : p.«end» - cursor ≤ 0)]
          norm_num
        rw [hclip0, hcmax]
        have hih := ih cursor hc hpair' hwfrest
        simp only [slotMinutes, List.map_nil, List.sum_nil] at hih ⊢
        push_cast at hih ⊢
        linear_combination hih
      · have hpec : cursor ≤ p.«end» := not_lt.mp hpe
        have hcmax : max cursor p.«end» = p.«end» := max_eq_right hpec
        have hclip : ((max 0 (min p.«end» (dayMidnight + DAY_END_HOUR * 3600000)
            - max p.start cursor) : Int) : ℚ) / 60000 =
            ((p.«end» - cursor : Int) : ℚ) / 60000 := by
          rw [min_eq_left hpD, max_eq_right hpsc,
            max_eq_right (by omega : (0:Int) ≤ p.«end» - cursor)]
        have hmapeq : rest.map (fun q =>
            ((max 0 (min q.«end» (dayMidnight + DAY_END_HOUR * 3600000) -
              max q.start cursor) : Int) : ℚ) / 60000) =
            rest.map (fun q =>
            ((max 0 (min q.«end» (dayMidnight + DAY_END_HOUR * 3600000) -
              max q.start p.«end») : Int) : ℚ) / 60000) := by
          apply List.map_congr_left
          intro q hq
          have hq1 := hsep q hq
          rw [max_eq_left (le_of_lt hq1),
            max_eq_left (le_of_lt (by omega : cursor < q.start))]
        rw [hclip, hcmax, hmapeq]
        have hih := ih p.«end» hpD hpair' hwfrest
        simp only [slotMinutes, List.map_nil, List.sum_nil] at hih ⊢
        push_cast at hih ⊢
        linear_combination hih

theorem freeWalk_minDur_le (prefs : UserPreferences) (dayMidnight : Int)
    (minDuration : ℚ) (hmd : 0 ≤ minDuration) :
    ∀ (merged : List Ivl) (cursor : Int),
      slotMinutes (freeWalk prefs dayMidnight
        (dayMidnight + DAY_END_HOUR * 3600000) minDuration none cursor merged) ≤
      slotMinutes (freeWalk prefs dayMidnight
        (dayMidnight + DAY_END_HOUR * 3600000) 0 none cursor merged) := by
  intro merged
  induction merged with
  | nil =>
    intro cursor
    simp only [freeWalk]
    by_cases hlt : cursor < dayMidnight + DAY_END_HOUR * 3600000
    · rw [if_pos hlt, if_pos hlt]
      have hdpos : (0:ℚ) ≤
          ((dayMidnight + DAY_END_HOUR * 3600000 - cursor : Int) : ℚ) / 60000 := by
        apply div_nonneg _ (by norm_num)
        have h0 : (0:Int) ≤ dayMidnight + DAY_END_HOUR * 3600000 - cursor := by
          omega
        exact_mod_cast h0
      rw [if_pos hdpos, if_pos (Or.inl trivial)]
      by_cases hk : minDuration ≤
          ((dayMidnight + DAY_END_HOUR * 3600000 - cursor : Int) : ℚ) / 60000
      · rw [if_pos hk]
      · rw [if_neg hk]
        simpa [slotMinutes] using hdpos
    · rw [if_neg hlt, if_neg hlt]
  | cons p rest ih =>
    intro cursor
    simp only [freeWalk]
    rw [slotMinutes_append, slotMinutes_append]
    refine add_le_add ?_ (ih _)
    by_cases hps : p.start > cursor
    · rw [if_pos hps, if_pos hps]
      have hdpos : (0:ℚ) ≤ ((p.start - cursor : Int) : ℚ) / 60000 := by
        apply div_nonneg _ (by norm_num)
        have h0 : (0:Int) ≤ p.start - cursor := by omega
        exact_mod_cast h0
      rw [if_pos hdpos, if_pos (Or.inl trivial)]
      by_cases hk : minDuration ≤ ((p.start - cursor : Int) : ℚ) / 60000
      · rw [if_pos hk]
      · rw [if_neg hk]
        simpa [slotMinutes] using hdpos
    · rw [if_neg hps, if_neg hps]

/-- C4 counterexample preferences: a single protected block lying entirely
after the 21:00 window end. -/
def latePrefs : UserPreferences :=
  { basePrefs with schedulingRules :=
      { basePrefs.schedulingRules with
        protectedBlocks := [⟨"monday", 21 * 60 + 30, 22 * 60, "Late"⟩] } }

/-- C4 counterexample: with no events, minimum duration 0 and a protected
block 21:30–22:00, the gap walk emits one slot running from 07:00 all the
way to the block start at 21:30 — 870 minutes, beyond the window — while the
merged busy time inside the window is 0, so the claimed identity
`slots + busy = 840` fails (the source never clips protected blocks to the
window). -/
theorem freeSlot_conservation_counterexample :
    slotMinutes (findFreeSlots [] latePrefs 0 "monday" 0 none) +
      mergedBusyWindowMinutes [] latePrefs 0 "monday" = 870 ∧
    (870 : ℚ) ≠ 840 := by
  constructor
  · with_unfolding_all rfl
  · norm_num

/-- C4 (amended): for every event list whose events are well-formed
(start ≤ end) and every preferences whose protected blocks for the day are
well-formed and end by 21:00, the slot durations returned by `findFreeSlots`
with minimum duration 0 and no energy filter plus the total in-window
duration of the merged busy intervals equal 840 minutes; with any
nonnegative minimum duration the same sum is at most 840 (below-threshold
fragments are dropped, never re-split). Without the provisos a protected
block beyond the window breaks the identity. -/
theorem freeSlot_conservation (events : List CalendarEvent)
    (prefs : UserPreferences) (dayMidnight : Int) (dayName : String)
    (hev : ∀ ev ∈ events, getEventStart ev ≤ getEventEnd ev)
    (hbl : ∀ b ∈ prefs.schedulingRules.protectedBlocks, b.day = dayName →
      b.start ≤ b.«end» ∧ b.«end» ≤ DAY_END_HOUR * 60) :
    slotMinutes (findFreeSlots events prefs dayMidnight dayName 0 none) +
      mergedBusyWindowMinutes events prefs dayMidnight dayName = 840 ∧
    ∀ minDuration : ℚ, 0 ≤ minDuration →
      slotMinutes (findFreeSlots events prefs dayMidnight dayName
          minDuration none) +
        mergedBusyWindowMinutes events prefs dayMidnight dayName ≤ 840 := by
  have hwfall := busyIntervals_wf events prefs dayMidnight dayName hev hbl
  have hsorted := busyIntervals_sorted events prefs dayMidnight dayName
  have hmerged : (mergeIvls (busyIntervals events prefs dayMidnight
        dayName)).Pairwise (fun p q => p.«end» < q.start) ∧
      ∀ p ∈ mergeIvls (busyIntervals events prefs dayMidnight dayName),
        p.start ≤ p.«end» ∧
          p.«end» ≤ dayMidnight + DAY_END_HOUR * 3600000 := by
    cases hbi : busyIntervals events prefs dayMidnight dayName with
    | nil => simp [mergeIvls]
    | cons q rest =>
      rw [hbi] at hwfall hsorted
      rcases hsorted with _ | ⟨hqs, hpair'⟩
      obtain ⟨hqwf, hqD⟩ := hwfall q (List.mem_cons_self q rest)
      have hq : ∀ r ∈ rest, q.start ≤ r.start ∧ r.start ≤ r.«end» ∧
          r.«end» ≤ dayMidnight + DAY_END_HOUR * 3600000 :=
        fun r hr => ⟨hqs r hr, (hwfall r (List.mem_cons_of_mem q hr)).1,
          (hwfall r (List.mem_cons_of_mem q hr)).2⟩
      constructor
      · exact mergeGo_sep _ rest q.start q.«end» hqwf hqD hq hpair'
      · intro p hp
        exact (mergeGo_mem_props _ rest q.start q.«end» hqwf hqD hq hpair'
          p hp).2
  have hDstart : dayMidnight + DAY_START_HOUR * 3600000 ≤
      dayMidnight + DAY_END_HOUR * 3600000 := by
    unfold DAY_START_HOUR DAY_END_HOUR
    omega
  have hcons := freeWalk_conservation prefs dayMidnight
    (mergeIvls (busyIntervals events prefs dayMidnight dayName))
    (dayMidnight + DAY_START_HOUR * 3600000) hDstart hmerged.1 hmerged.2
  have hconst : ((dayMidnight + DAY_END_HOUR * 3600000 -
      (dayMidnight + DAY_START_HOUR * 3600000) : Int) : ℚ) / 60000 = 840 := by
    have h1 : (dayMidnight + DAY_END_HOUR * 3600000 -
        (dayMidnight + DAY_START_HOUR * 3600000) : Int) = 50400000 := by
      unfold DAY_START_HOUR DAY_END_HOUR
      omega
    rw [h1]
    norm_num
  have hmain : slotMinutes (findFreeSlots events prefs dayMidnight dayName
      0 none) + mergedBusyWindowMinutes events prefs dayMidnight dayName =
      840 := by
    rw [← hconst]
    exact hcons
  refine ⟨hmain, ?_⟩
  intro minDuration hmd
  have hmono := freeWalk_minDur_le prefs dayMidnight minDuration hmd
    (mergeIvls (busyIntervals events prefs dayMidnight dayName))
    (dayMidnight + DAY_START_HOUR * 3600000)
  calc slotMinutes (findFreeSlots events prefs dayMidnight dayName
        minDuration none) +
      mergedBusyWindowMinutes events prefs dayMidnight dayName ≤
      slotMinutes (findFreeSlots events prefs dayMidnight dayName 0 none) +
        mergedBusyWindowMinutes events prefs dayMidnight dayName := by
        exact add_le_add_right hmono _
    _ = 840 := hmain

/-- C4 witness: the amended theorem applied to the concrete Monday fixture —
one 09:00–10:00 meeting plus the 12:00–13:00 protected lunch: the equality
at minimum duration 0 and the bound at the default 30. -/
theorem freeSlot_conservation_witness :
    slotMinutes (findFreeSlots [makeEvent "1" "Meeting" (hm 9 0) (hm 10 0)]
        basePrefs 0 "monday" 0 none) +
      mergedBusyWindowMinutes [makeEvent "1" "Meeting" (hm 9 0) (hm 10 0)]
        basePrefs 0 "monday" = 840 ∧
    slotMinutes (findFreeSlots [makeEvent "1" "Meeting" (hm 9 0) (hm 10 0)]
        basePrefs 0 "monday" 30 none) +
      mergedBusyWindowMinutes [makeEvent "1" "Meeting" (hm 9 0) (hm 10 0)]
        basePrefs 0 "monday" ≤ 840 := by
  have h := freeSlot_conservation [makeEvent "1" "Meeting" (hm 9 0) (hm 10 0)]
    basePrefs 0 "monday"
    (by
      intro ev hev
      rw [List.mem_singleton] at hev
      subst hev
      with_unfolding_all decide)
    (by
      intro b hb hbd
      have hb2 : b ∈ [(⟨"monday", 720, 780, "Lunch"⟩ : TimeBlock)] := hb
      rw [List.mem_singleton] at hb2
      subst hb2
      constructor <;> decide)
  exact ⟨h.1, h.2 30 (by norm_num)⟩
